import Mathlib

/-!
# gbtm: tile matching of a map image against a tileset

A shallow embedding of `src/main.c` (the `gbtm` tile mapper) and theorems about it.

Conventions of the embedding:

* a C `int` is an `Int` that has to lie in the 32-bit range (`fits_int`); `/` and `%` are the
  truncating `Int.tdiv` and `Int.tmod`; signed overflow in the address arithmetic and division
  by zero are undefined operations;
* a byte is a `Nat`, an `uint8_t` conversion is an explicit `% 256`;
* a pointer to a heap block is `Option (List Nat)`: `none` is `NULL`, `some d` a block holding
  the bytes `d`; a pointer into a block is the block together with an `Int` offset;
* an undefined operation (signed overflow, division by zero, access outside a block or through
  `NULL`) makes the result of the function `none`;
* a counted `for` loop is a recursion on the number of iterations that are left, with the loop
  variable carried along;
* what a function prints is returned as a list of `event`s.
-/

namespace Gbtm

/-! ## Constants (main.c, lines 10-21) -/

/-- Each pixel has 4 components (RGBA). -/
def COMPONENTS : Int := 4
/-- Each component is represented in 1 byte. -/
def COMPONENT_SIZE_B : Int := 1
/-- A pixel therefore requires 4 bytes. -/
def PIXEL_SIZE_B : Int := COMPONENTS * COMPONENT_SIZE_B
/-- A tile is 8 pixels wide. -/
def TILE_WIDTH_PX : Int := 8
/-- A tile is 8 pixels high. -/
def TILE_HEIGHT_PX : Int := 8
/-- Number of pixels of a tile. -/
def TILE_SIZE_PX : Int := TILE_WIDTH_PX * TILE_HEIGHT_PX
/-- A tileset cannot have more than 256 tiles. -/
def MAX_TILESET_SIZE : Int := 256

/-! ## Output -/

/-- The functions of main.c that `main` calls. -/
inductive fn_name where
  | options_parse
  | tiled_image_load
  | tiled_image_free
  | tilemap_new
  | tilemap_generate
  | tilemap_save
  | tilemap_free
  deriving DecidableEq

/-- One observable step of a run: a line written by `printf` (with the values printed into it),
or the call of a function from `main`. -/
inductive event where
  | usage
  | invalid_arguments
  | load_failed (path : Option String)
  | bad_image_size (w_px h_px : Int)
  | unmatched_tile (i : Int)
  | too_many_tiles (num_tiles : Int)
  | tileset_loaded (w_px h_px w_tiles h_tiles : Int)
  | image_loaded (w_px h_px w_tiles h_tiles : Int)
  | tiles_mapped (num_tiles : Int)
  | open_failed (path : Option String)
  | short_write (path : Option String) (written size : Nat)
  | tilemap_written (path : Option String)
  | call (f : fn_name)
  deriving DecidableEq

/-! ## struct tiled_image (main.c, lines 67-110) -/

/-- The C struct `tiled_image`. -/
structure tiled_image where
  w_px : Int
  h_px : Int
  w_tiles : Int
  h_tiles : Int
  num_tiles : Int
  data : Option (List Nat)
  deriving DecidableEq

/-- Source: `tiled_image_free`; the block is released and the pointer set to `NULL`. -/
def tiled_image_free (img : tiled_image) : tiled_image :=
  { img with data := none }

/-- What `stbi_load` (3rdparty/stb_image.h, an external collaborator) hands back on success:
the width and height it stores through its pointer arguments and the decoded RGBA buffer. -/
structure decoded where
  w : Int
  h : Int
  pixels : List Nat
  deriving DecidableEq

/-- Source: `tiled_image_load`. The decoder is a parameter; `none` is its `NULL` result, in
which case the model leaves the other fields of `img` as they were. The result is the returned
`int`, the image struct afterwards and the lines printed. -/
def tiled_image_load (stbi_load : Option String → Option decoded) (img : tiled_image)
    (path : Option String) : Int × tiled_image × List event :=
  match stbi_load path with
  | none => (-1, { img with data := none }, [event.load_failed path])
  | some dec =>
    let img1 : tiled_image := { img with w_px := dec.w, h_px := dec.h, data := some dec.pixels }
    if Int.tmod img1.w_px TILE_WIDTH_PX ≠ 0 ∨ Int.tmod img1.h_px TILE_HEIGHT_PX ≠ 0 then
      (-1, tiled_image_free img1, [event.bad_image_size img1.w_px img1.h_px])
    else
      let w_tiles := Int.tdiv img1.w_px TILE_WIDTH_PX
      let h_tiles := Int.tdiv img1.h_px TILE_HEIGHT_PX
      (0, { img1 with w_tiles := w_tiles, h_tiles := h_tiles, num_tiles := w_tiles * h_tiles }, [])

/-- The values of the C type `int`: 32 bits, two's complement. -/
def fits_int (x : Int) : Prop := -2 ^ 31 ≤ x ∧ x < 2 ^ 31

instance (x : Int) : Decidable (fits_int x) := by
  unfold fits_int; infer_instance

/-- The values of type `int` that `tiled_image_get_pixel_row` computes (main.c, lines 104-108),
in the order of the source: the quotient `tile_row`, the remainder `tile_col`, the three
products of `offset_tile_row`, the two of `offset_tile_col` and the two of
`offset_pixel_row`. -/
def pixel_row_ints (img : tiled_image) (tile_idx pixel_row : Int) : List Int :=
  let tile_row := Int.tdiv tile_idx img.w_tiles
  let tile_col := Int.tmod tile_idx img.w_tiles
  [tile_row, tile_col,
    tile_row * img.w_px, tile_row * img.w_px * PIXEL_SIZE_B,
    tile_row * img.w_px * PIXEL_SIZE_B * TILE_HEIGHT_PX,
    tile_col * TILE_WIDTH_PX, tile_col * TILE_WIDTH_PX * PIXEL_SIZE_B,
    pixel_row * img.w_px, pixel_row * img.w_px * PIXEL_SIZE_B]

/-- Source: `tiled_image_get_pixel_row`. The result is the offset that is added to `img->data`;
it is undefined when `w_tiles` is zero (division by zero) and when one of the `int` values
computed on the way does not fit an `int` (signed overflow). -/
def tiled_image_get_pixel_row (img : tiled_image) (tile_idx pixel_row : Int) : Option Int :=
  if img.w_tiles = 0 then none
  else if ¬ ∀ v ∈ pixel_row_ints img tile_idx pixel_row, fits_int v then none
  else
    let tile_row := Int.tdiv tile_idx img.w_tiles
    let tile_col := Int.tmod tile_idx img.w_tiles
    let offset_tile_row := tile_row * img.w_px * PIXEL_SIZE_B * TILE_HEIGHT_PX
    let offset_tile_col := tile_col * TILE_WIDTH_PX * PIXEL_SIZE_B
    let offset_pixel_row := pixel_row * img.w_px * PIXEL_SIZE_B
    some (offset_tile_row + offset_tile_col + offset_pixel_row)

/-- The values that `tiled_image_get_pixel_row` computes on the way (main.c, lines 104-109):
the `int` values of `pixel_row_ints`, and the offsets of the two pointers that the sum in the
`return` statement passes through after `img->data + offset_tile_row`. -/
def pixel_row_steps (img : tiled_image) (tile_idx pixel_row : Int) : List Int :=
  let tile_row := Int.tdiv tile_idx img.w_tiles
  let tile_col := Int.tmod tile_idx img.w_tiles
  let offset_tile_row := tile_row * img.w_px * PIXEL_SIZE_B * TILE_HEIGHT_PX
  let offset_tile_col := tile_col * TILE_WIDTH_PX * PIXEL_SIZE_B
  let offset_pixel_row := pixel_row * img.w_px * PIXEL_SIZE_B
  pixel_row_ints img tile_idx pixel_row ++
    [offset_tile_row + offset_tile_col, offset_tile_row + offset_tile_col + offset_pixel_row]

/-! ## Tile comparison (main.c, lines 112-123) -/

/-- The `n` bytes at offset `off` of a block; undefined through `NULL` or outside the block. -/
def load_bytes (data : Option (List Nat)) (off : Int) (n : Nat) : Option (List Nat) :=
  match data with
  | none => none
  | some d =>
    if 0 ≤ off ∧ off.toNat + n ≤ d.length then some ((d.drop off.toNat).take n) else none

/-- Lexicographic comparison of two byte strings, as `memcmp` orders them. -/
def bytes_cmp : List Nat → List Nat → Int
  | a :: as, b :: bs => if a < b then -1 else if b < a then 1 else bytes_cmp as bs
  | _, _ => 0

/-- The C library `memcmp` on `n` bytes at two pointers (block and offset each). -/
def memcmp (d1 : Option (List Nat)) (p1 : Int) (d2 : Option (List Nat)) (p2 : Int) (n : Nat) :
    Option Int :=
  match load_bytes d1 p1 n with
  | none => none
  | some a =>
    match load_bytes d2 p2 n with
    | none => none
    | some b => some (bytes_cmp a b)

/-- The row loop of `is_tile_equal`: `left` iterations remain, the loop variable is `row`. -/
def is_tile_equal_rows (img_1 : tiled_image) (tile_idx_1 : Int) (img_2 : tiled_image)
    (tile_idx_2 : Int) : Nat → Int → Option Int
  | 0, _ => some 1
  | left + 1, row =>
    match tiled_image_get_pixel_row img_1 tile_idx_1 row with
    | none => none
    | some img_1_data =>
      match tiled_image_get_pixel_row img_2 tile_idx_2 row with
      | none => none
      | some img_2_data =>
        match memcmp img_1.data img_1_data img_2.data img_2_data
            (TILE_WIDTH_PX * PIXEL_SIZE_B).toNat with
        | none => none
        | some c =>
          if c ≠ 0 then some 0
          else is_tile_equal_rows img_1 tile_idx_1 img_2 tile_idx_2 left (row + 1)

/-- Source: `is_tile_equal`; rows `0 .. TILE_HEIGHT_PX - 1` are compared in order. -/
def is_tile_equal (img_1 : tiled_image) (tile_idx_1 : Int) (img_2 : tiled_image)
    (tile_idx_2 : Int) : Option Int :=
  is_tile_equal_rows img_1 tile_idx_1 img_2 tile_idx_2 (TILE_HEIGHT_PX - 0).toNat 0

/-! ## struct tilemap (main.c, lines 125-160) -/

/-- The C struct `tilemap`. -/
structure tilemap where
  size : Nat
  data : Option (List Nat)
  deriving DecidableEq

/-- Conversion of an `int` to `size_t` (64 bit). -/
def size_t_of_int (x : Int) : Nat := (x % 2 ^ 64).toNat

/-- Conversion of an `int` to `uint8_t`. -/
def uint8_of_int (x : Int) : Nat := (x % 256).toNat

/-- The C library `malloc`: a request of more than `PTRDIFF_MAX` bytes fails with `NULL`; the
block returned otherwise is not initialised, its bytes are whatever `junk` (a parameter, one
byte per position) holds. -/
def malloc (junk : Nat → Nat) (size : Nat) : Option (List Nat) :=
  if size < 2 ^ 63 then some ((List.range size).map fun k => junk k % 256) else none

/-- Source: `tilemap_new`. -/
def tilemap_new (junk : Nat → Nat) (num_tiles : Int) : tilemap :=
  { size := size_t_of_int num_tiles, data := malloc junk (size_t_of_int num_tiles) }

/-- Source: `tilemap_free`. -/
def tilemap_free (map : tilemap) : tilemap :=
  { map with data := none }

/-- Source: `tilemap_set_tile`; a store outside the block (or through `NULL`) is undefined. -/
def tilemap_set_tile (map : tilemap) (tilemap_idx : Int) (tileset_idx : Nat) : Option tilemap :=
  match map.data with
  | none => none
  | some d =>
    if 0 ≤ tilemap_idx ∧ tilemap_idx.toNat < d.length then
      some { map with data := some (d.set tilemap_idx.toNat tileset_idx) }
    else none

/-- The inner loop of `tilemap_generate` for map tile `i`: `left` iterations remain, the loop
variable is `j` and `matched` is the current value of the C variable `match`. The result is the
value of `match` when the loop is left, and the tilemap. -/
def tilemap_generate_scan (image : tiled_image) (i : Int) (tileset : tiled_image) :
    Nat → Int → Int → tilemap → Option (Int × tilemap)
  | 0, _, matched, map => some (matched, map)
  | left + 1, j, _, map =>
    match is_tile_equal image i tileset j with
    | none => none
    | some matched =>
      if matched ≠ 0 then
        match tilemap_set_tile map i (uint8_of_int j) with
        | none => none
        | some map1 => some (matched, map1)
      else tilemap_generate_scan image i tileset left (j + 1) matched map

/-- What `tilemap_generate` leaves behind: the returned `int`, the tilemap and the lines
printed. -/
structure generated where
  retval : Int
  map : tilemap
  out : List event
  deriving DecidableEq

/-- The outer loop of `tilemap_generate`: `left` iterations remain, the loop variable is `i`. -/
def tilemap_generate_tiles (image tileset : tiled_image) : Nat → Int → tilemap → Option generated
  | 0, _, map => some { retval := 0, map := map, out := [] }
  | left + 1, i, map =>
    match tilemap_generate_scan image i tileset (tileset.num_tiles - 0).toNat 0 1 map with
    | none => none
    | some (matched, map1) =>
      if matched = 0 then some { retval := -1, map := map1, out := [event.unmatched_tile i] }
      else tilemap_generate_tiles image tileset left (i + 1) map1

/-- Source: `tilemap_generate`. -/
def tilemap_generate (map : tilemap) (image tileset : tiled_image) : Option generated :=
  tilemap_generate_tiles image tileset (image.num_tiles - 0).toNat 0 map

/-! ## Command line (main.c, lines 23-65) -/

/-- The C struct `options`; a path that was not given is `NULL`, here `none`. -/
structure options where
  tileset_path : Option String
  image_path : Option String
  tilemap_path : Option String
  deriving DecidableEq

/-- How a call of `options_parse` ends: with `exit(code)` or by returning to `main`. -/
inductive parsed where
  | exited (code : Int) (out : List event)
  | returned (opts : options)
  deriving DecidableEq

/-- The loop of `options_parse` over the flags: `left` iterations remain, the loop variable is
`i`; `argv[argc]` is `NULL`. -/
def options_parse_flags (argv : List String) : Nat → Nat → options → options
  | 0, _, opts => opts
  | left + 1, i, opts =>
    let arg := argv.getD i ""
    let opts1 : options :=
      if arg = "--tileset" ∨ arg = "-s" then { opts with tileset_path := argv[i + 1]? }
      else if arg = "--image" ∨ arg = "-i" then { opts with image_path := argv[i + 1]? }
      else if arg = "--tilemap" ∨ arg = "-m" then { opts with tilemap_path := argv[i + 1]? }
      else opts
    options_parse_flags argv left (i + 2) opts1

/-- Source: `options_parse`; `argc` is the length of `argv`. The last test is the one of the
source: it looks at `tilemap_path`, `image_path` and `tilemap_path`. -/
def options_parse (argv : List String) (opts : options) : parsed :=
  let argc := argv.length
  if argc = 1 ∨ (argc = 2 ∧ (argv.getD 1 "" = "--help" ∨ argv.getD 1 "" = "-h")) then
    parsed.exited 0 [event.usage]
  else if argc ≠ 7 then
    parsed.exited (-1) [event.invalid_arguments, event.usage]
  else
    let opts1 := options_parse_flags argv ((argc - 1 + 1) / 2) 1 opts
    if opts1.tilemap_path = none ∨ opts1.image_path = none ∨ opts1.tilemap_path = none then
      parsed.exited (-1) [event.invalid_arguments, event.usage]
    else parsed.returned opts1

/-! ## Saving the tilemap (main.c, lines 162-178) -/

/-- The part of the file system that `tilemap_save` touches: the files by path, whether a path
that does not exist yet can be created, and how many bytes a write can store. -/
structure file_system where
  files : String → Option (List Nat)
  creatable : String → Bool
  room : Nat

/-- The C library call `fopen(filename, "wx")`: it fails when the file exists (or cannot be
created, or the name is `NULL`), and creates an empty file otherwise. -/
def fopen_wx (fs : file_system) (filename : Option String) : Option (String × file_system) :=
  match filename with
  | none => none
  | some p =>
    if fs.files p = none ∧ fs.creatable p = true then
      some (p, { fs with files := fun q => if q = p then some [] else fs.files q })
    else none

/-- The C library call `fwrite(data, 1, size, file)` on a freshly created file: the number of
bytes written and the file system afterwards; reading `size` bytes of the block is undefined
when the block is shorter. -/
def fwrite (fs : file_system) (p : String) (data : Option (List Nat)) (size : Nat) :
    Option (Nat × file_system) :=
  match load_bytes data 0 size with
  | none => none
  | some bytes =>
    let c := min size fs.room
    some (c, { fs with files := fun q => if q = p then some (bytes.take c) else fs.files q })

/-- What `tilemap_save` leaves behind; `retval` is `none` when control reaches the end of the
function, which has no `return` statement there. -/
structure saved where
  retval : Option Int
  fs : file_system
  out : List event

/-- Source: `tilemap_save`. -/
def tilemap_save (fs : file_system) (map : tilemap) (filename : Option String) : Option saved :=
  match fopen_wx fs filename with
  | none => some { retval := some (-1), fs := fs, out := [event.open_failed filename] }
  | some (p, fs1) =>
    match fwrite fs1 p map.data map.size with
    | none => none
    | some (c, fs2) =>
      if c ≠ map.size then
        some { retval := some (-1), fs := fs2, out := [event.short_write filename c map.size] }
      else some { retval := none, fs := fs2, out := [] }

/-! ## The program (main.c, lines 180-235) -/

/-- What surrounds a run: the decoder, the contents of fresh heap memory and the file system. -/
structure world where
  stbi_load : Option String → Option decoded
  junk : Nat → Nat
  fs : file_system

/-- What a run leaves behind: the exit status (`none` when it is not defined), the lines printed
and calls made, and the file system. -/
structure run where
  status : Option Int
  out : List event
  fs : file_system

/-- The initialiser `{0}` of a `struct tiled_image` in `main`: all fields zero, `data` is
`NULL`. -/
def zero_image : tiled_image :=
  { w_px := 0, h_px := 0, w_tiles := 0, h_tiles := 0, num_tiles := 0, data := none }

/-- The initialiser `{0}` of the `struct options` in `main`: all paths are `NULL`. -/
def zero_options : options :=
  { tileset_path := none, image_path := none, tilemap_path := none }

/-- The label `exit:` of `main`: the three buffers are released and `retval` is returned. -/
def main_exit (retval : Option Int) (out : List event) (fs : file_system) : run :=
  { status := retval
    out := out ++ [event.call fn_name.tiled_image_free, event.call fn_name.tiled_image_free,
      event.call fn_name.tilemap_free]
    fs := fs }

/-- Source: `main`, after `options_parse` has returned `opts`. An undefined call (`none`) ends
the trace with an undefined status. -/
def main_body (w : world) (opts : options) : run :=
  let out0 := [event.call fn_name.options_parse, event.call fn_name.tiled_image_load]
  match tiled_image_load w.stbi_load zero_image opts.tileset_path with
  | (error1, tileset, out1) =>
    if error1 ≠ 0 then main_exit (some error1) (out0 ++ out1) w.fs
    else if tileset.num_tiles > MAX_TILESET_SIZE then
      main_exit (some (-1)) (out0 ++ out1 ++ [event.too_many_tiles tileset.num_tiles]) w.fs
    else
      let out2 := out0 ++ out1 ++
        [event.tileset_loaded tileset.w_px tileset.h_px tileset.w_tiles tileset.h_tiles,
          event.call fn_name.tiled_image_load]
      match tiled_image_load w.stbi_load zero_image opts.image_path with
      | (error2, image, out3) =>
        if error2 ≠ 0 then main_exit (some error2) (out2 ++ out3) w.fs
        else
          let out4 := out2 ++ out3 ++
            [event.image_loaded image.w_px image.h_px image.w_tiles image.h_tiles,
              event.call fn_name.tilemap_new, event.call fn_name.tilemap_generate]
          match tilemap_generate (tilemap_new w.junk image.num_tiles) image tileset with
          | none => { status := none, out := out4, fs := w.fs }
          | some g =>
            if g.retval ≠ 0 then main_exit (some g.retval) (out4 ++ g.out) w.fs
            else
              let out5 := out4 ++ g.out ++
                [event.tiles_mapped image.num_tiles, event.call fn_name.tilemap_save]
              match tilemap_save w.fs g.map opts.tilemap_path with
              | none => { status := none, out := out5, fs := w.fs }
              | some s =>
                match s.retval with
                | none => { status := none, out := out5 ++ s.out, fs := s.fs }
                | some error5 =>
                  if error5 ≠ 0 then main_exit (some error5) (out5 ++ s.out) s.fs
                  else
                    main_exit (some 0)
                      (out5 ++ s.out ++ [event.tilemap_written opts.tilemap_path]) s.fs

/-- Source: `main`; `argv` is the argument vector (its length is `argc`). -/
def main (w : world) (argv : List String) : run :=
  match options_parse argv zero_options with
  | parsed.exited code out =>
    { status := some code, out := event.call fn_name.options_parse :: out, fs := w.fs }
  | parsed.returned opts => main_body w opts

/-! ## Vocabulary of the specification -/

/-- The load invariants of an image, as the specification states them: both dimensions are
positive multiples of 8, the tile counts are derived from them, and the buffer holds
`w_px * h_px * 4` bytes. -/
def well_formed (img : tiled_image) : Prop :=
  0 < img.w_px ∧ 0 < img.h_px ∧ img.w_px % 8 = 0 ∧ img.h_px % 8 = 0 ∧
    img.w_tiles = img.w_px / 8 ∧ img.h_tiles = img.h_px / 8 ∧
    img.num_tiles = img.w_tiles * img.h_tiles ∧
    img.data.map (fun d => (d.length : Int)) = some (img.w_px * img.h_px * 4)

instance (img : tiled_image) : Decidable (well_formed img) := by
  unfold well_formed; infer_instance

/-- The byte at offset `off` of a block, when there is one. -/
def byte_at (data : Option (List Nat)) (off : Int) : Option Nat :=
  match data with
  | none => none
  | some d => if 0 ≤ off then d[off.toNat]? else none

/-- Channel `c` of the pixel in column `x` and row `y` of the row-major RGBA buffer. -/
def pixel_byte (img : tiled_image) (x y c : Int) : Option Nat :=
  byte_at img.data ((y * img.w_px + x) * 4 + c)

/-- Channel `c` of the pixel in column `x` and row `y` of tile `t`: the tile lies in tile column
`t % w_tiles` and tile row `t / w_tiles`. -/
def tile_byte (img : tiled_image) (t x y c : Int) : Option Nat :=
  pixel_byte img (8 * (t % img.w_tiles) + x) (8 * (t / img.w_tiles) + y) c

/-- The offset of row `r` of tile `t`, as the specification writes it. -/
def row_offset (img : tiled_image) (t r : Int) : Int :=
  ((8 * (t / img.w_tiles) + r) * img.w_px + 8 * (t % img.w_tiles)) * 4

/-- Row `r` of tile `a` of `A` and of tile `b` of `B` can both be read and hold the same 32
bytes. -/
def rows_equal (A : tiled_image) (a : Int) (B : tiled_image) (b : Int) (r : Int) : Prop :=
  ∃ (p1 p2 : Int) (s : List Nat), tiled_image_get_pixel_row A a r = some p1 ∧
    tiled_image_get_pixel_row B b r = some p2 ∧ load_bytes A.data p1 32 = some s ∧
    load_bytes B.data p2 32 = some s

/-- Row `r` of tile `a` of `A` and of tile `b` of `B` can both be read. -/
def rows_defined (A : tiled_image) (a : Int) (B : tiled_image) (b : Int) (r : Int) : Prop :=
  ∃ (p1 p2 : Int) (s1 s2 : List Nat), tiled_image_get_pixel_row A a r = some p1 ∧
    tiled_image_get_pixel_row B b r = some p2 ∧ load_bytes A.data p1 32 = some s1 ∧
    load_bytes B.data p2 32 = some s2

/-- Tileset tile `j` is the first one that equals map tile `i`. -/
def first_match (image : tiled_image) (i : Int) (tileset : tiled_image) (j : Int) : Prop :=
  0 ≤ j ∧ j < tileset.num_tiles ∧ is_tile_equal image i tileset j = some 1 ∧
    ∀ j1 : Int, 0 ≤ j1 → j1 < j → is_tile_equal image i tileset j1 = some 0

/-- No tileset tile equals map tile `i`. -/
def no_match (image : tiled_image) (i : Int) (tileset : tiled_image) : Prop :=
  ∀ j : Int, 0 ≤ j → j < tileset.num_tiles → is_tile_equal image i tileset j = some 0

/-- The argument vector is exactly one `--help` or `-h` after the program name. -/
def is_help_request (argv : List String) : Prop :=
  argv.length = 2 ∧ (argv[1]? = some "--help" ∨ argv[1]? = some "-h")

instance (argv : List String) : Decidable (is_help_request argv) := by
  unfold is_help_request; infer_instance

/-- One of the flag positions `argv[1]`, `argv[3]`, `argv[5]` of a seven-element argument
vector holds the flag, in its long or its short form. -/
def gives_option (argv : List String) (long short : String) : Prop :=
  (argv[1]? = some long ∨ argv[1]? = some short) ∨
    (argv[3]? = some long ∨ argv[3]? = some short) ∨
    (argv[5]? = some long ∨ argv[5]? = some short)

instance (argv : List String) (long short : String) : Decidable (gives_option argv long short) := by
  unfold gives_option; infer_instance

/-! ## Example inputs -/

/-- An image of `w_tiles * h_tiles` tiles whose tile in tile column `c` and tile row `r` is
filled with the RGBA pixel `colour (r * w_tiles + c)`. -/
def solid_tiles (w_tiles h_tiles : Nat) (colour : Nat → List Nat) : tiled_image :=
  { w_px := 8 * w_tiles
    h_px := 8 * h_tiles
    w_tiles := w_tiles
    h_tiles := h_tiles
    num_tiles := w_tiles * h_tiles
    data := some ((List.range (8 * h_tiles)).flatMap fun y =>
      (List.range (8 * w_tiles)).flatMap fun x => colour (y / 8 * w_tiles + x / 8)) }

/-- An opaque red pixel. -/
def red : List Nat := [255, 0, 0, 255]

/-- An opaque blue pixel. -/
def blue : List Nat := [0, 0, 255, 255]

/-- An opaque green pixel. -/
def green : List Nat := [0, 255, 0, 255]

/-- A map image of two tiles, a red one and a blue one. -/
def red_blue : tiled_image := solid_tiles 2 1 fun k => if k = 0 then red else blue

/-- A map image of one red tile. -/
def red_tile : tiled_image := solid_tiles 1 1 fun _ => red

/-- A tileset without tiles: 8 pixels wide and 0 pixels high. -/
def no_tiles : tiled_image := solid_tiles 1 0 fun _ => red

/-- A map image of two tiles, a red one and a green one. -/
def red_green : tiled_image := solid_tiles 2 1 fun k => if k = 0 then red else green

/-- The argument vector of a complete call of the program. -/
def full_argv : List String :=
  ["gbtm", "-s", "tileset.png", "-i", "image.png", "-m", "out.map"]

/-- The options that `options_parse` returns for `full_argv`. -/
def full_opts : options :=
  { tileset_path := some "tileset.png", image_path := some "image.png",
    tilemap_path := some "out.map" }

/-- A run in which the decoder hands back the given tileset (width, height, pixels) and map
image; fresh heap memory holds the byte 7, no file exists yet. -/
def world_of (tileset image : decoded) : world :=
  { stbi_load := fun p =>
      if p = some "tileset.png" then some tileset
      else if p = some "image.png" then some image
      else none
    junk := fun _ => 7
    fs := { files := fun _ => none, creatable := fun _ => true, room := 1024 } }

/-- The red and blue image as the decoder hands it back. -/
def red_blue_decoded : decoded := { w := 16, h := 8, pixels := red_blue.data.getD [] }

/-- A decoded image of 9 by 8 pixels. -/
def narrow_decoded : decoded := { w := 9, h := 8, pixels := List.replicate 288 0 }

/-- A decoded image of 264 by 64 pixels, 33 by 8 tiles. -/
def large_decoded : decoded := { w := 264, h := 64, pixels := List.replicate 67584 0 }

/-- A decoded image of 128 by 128 pixels, 16 by 16 tiles. -/
def square_decoded : decoded := { w := 128, h := 128, pixels := List.replicate 65536 0 }

/-- An argument vector of seven elements without `--tileset` or `-s`: the image flag is given
twice. -/
def no_tileset_argv : List String :=
  ["gbtm", "-i", "other.png", "-i", "image.png", "-m", "out.map"]

/-- The red and green image as the decoder hands it back. -/
def red_green_decoded : decoded := { w := 16, h := 8, pixels := red_green.data.getD [] }

/-! # Theorems -/

/-! ## The result of a comparison -/

theorem is_tile_equal_rows_cases (A : tiled_image) (a : Int) (B : tiled_image) (b : Int) :
    ∀ (left : Nat) (row : Int) (v : Int), is_tile_equal_rows A a B b left row = some v →
      v = 0 ∨ v = 1 := by
  intro left
  induction left with
  | zero => intro row v h; simp [is_tile_equal_rows] at h; omega
  | succ n ih =>
    intro row v h
    simp only [is_tile_equal_rows] at h
    split at h
    · cases h
    · split at h
      · cases h
      · split at h
        · cases h
        · split at h
          · simp at h; omega
          · exact ih _ _ h

theorem is_tile_equal_cases {A : tiled_image} {a : Int} {B : tiled_image} {b : Int} {v : Int}
    (h : is_tile_equal A a B b = some v) : v = 0 ∨ v = 1 :=
  is_tile_equal_rows_cases A a B b _ _ _ h

theorem first_match_unique {image : tiled_image} {i : Int} {tileset : tiled_image} {j1 j2 : Int}
    (h1 : first_match image i tileset j1) (h2 : first_match image i tileset j2) : j1 = j2 := by
  obtain ⟨a1, b1, c1, d1⟩ := h1
  obtain ⟨a2, b2, c2, d2⟩ := h2
  rcases lt_trichotomy j1 j2 with h | h | h
  · have := d2 j1 a1 h; rw [c1] at this; simp at this
  · exact h
  · have := d1 j2 a2 h; rw [c2] at this; simp at this

theorem first_match_not_no_match {image : tiled_image} {i : Int} {tileset : tiled_image} {j : Int}
    (h1 : first_match image i tileset j) (h2 : no_match image i tileset) : False := by
  obtain ⟨a1, b1, c1, _⟩ := h1
  have := h2 j a1 b1; rw [c1] at this; simp at this

/-- The inner loop: either it stops at the first matching tile at or after `j` and stores its
index, or it runs through without a match and leaves the tilemap as it was. -/
theorem tilemap_generate_scan_spec (image : tiled_image) (i : Int) (tileset : tiled_image) :
    ∀ (left : Nat) (j matched : Int) (map : tilemap) (r : Int × tilemap),
      tilemap_generate_scan image i tileset left j matched map = some r →
      (∃ k : Nat, k < left ∧
          (∀ k1 : Nat, k1 < k → is_tile_equal image i tileset (j + k1) = some 0) ∧
          is_tile_equal image i tileset (j + k) = some 1 ∧ r.1 = 1 ∧
          tilemap_set_tile map i (uint8_of_int (j + k)) = some r.2) ∨
        ((∀ k : Nat, k < left → is_tile_equal image i tileset (j + k) = some 0) ∧
          r.2 = map ∧ r.1 = if left = 0 then matched else 0) := by
  intro left
  induction left with
  | zero =>
    intro j matched map r h
    simp [tilemap_generate_scan] at h
    right
    subst h
    simp
  | succ n ih =>
    intro j matched map r h
    simp only [tilemap_generate_scan] at h
    split at h
    · cases h
    · rename_i v hv
      split at h
      · rename_i hne
        have hv1 : v = 1 := by
          rcases is_tile_equal_cases hv with h0 | h1
          · exact absurd h0 hne
          · exact h1
        subst hv1
        split at h
        · cases h
        · rename_i map1 hset
          simp at h
          subst h
          left
          refine ⟨0, by omega, ?_, by simpa using hv, rfl, by simpa using hset⟩
          intro k1 hk1; omega
      · rename_i hne
        have hv0 : v = 0 := by simpa using hne
        subst hv0
        rcases ih _ _ _ _ h with ⟨k, hk, hbefore, hat, hr1, hset⟩ | ⟨hall, hmap, hr1⟩
        · left
          refine ⟨k + 1, by omega, ?_, ?_, hr1, ?_⟩
          · intro k1 hk1
            cases k1 with
            | zero => simpa using hv
            | succ k2 =>
              have := hbefore k2 (by omega)
              rw [← this]; congr 1; push_cast; ring
          · rw [← hat]; congr 1; push_cast; ring
          · rw [← hset]; congr 2; push_cast; ring
        · right
          refine ⟨?_, hmap, ?_⟩
          · intro k hk
            cases k with
            | zero => simpa using hv
            | succ k2 =>
              have := hall k2 (by omega)
              rw [← this]; congr 1; push_cast; ring
          · rw [hr1]; split <;> simp

/-! ## Reading and writing tilemap entries -/

theorem tilemap_set_tile_spec {map map1 : tilemap} {i : Int} {v : Nat}
    (h : tilemap_set_tile map i v = some map1) :
    map1.size = map.size ∧ map1.data.map List.length = map.data.map List.length ∧
      byte_at map1.data i = some v ∧
      ∀ p : Int, p ≠ i → byte_at map1.data p = byte_at map.data p := by
  unfold tilemap_set_tile at h
  split at h
  · cases h
  · rename_i d hd
    split at h
    · rename_i hb
      simp at h
      subst h
      refine ⟨rfl, by simp [hd], ?_, ?_⟩
      · simp [byte_at, hb.1, List.getElem?_set, hb.2]
      · intro p hp
        simp only [byte_at, hd]
        split
        · rename_i hp0
          rw [List.getElem?_set_ne]
          omega
        · rfl
    · cases h

/-- The inner loop started as `tilemap_generate` starts it: it finds the first match and stores
its index, or finds none; in the second case the variable `match` is left at 0 when the loop
body ran at all, and at its initial 1 when the tileset has no tile. -/
theorem tilemap_generate_scan_zero {image : tiled_image} {i : Int} {tileset : tiled_image}
    {map : tilemap} {r : Int × tilemap}
    (h : tilemap_generate_scan image i tileset (tileset.num_tiles - 0).toNat 0 1 map = some r) :
    (∃ j : Int, first_match image i tileset j ∧ r.1 = 1 ∧
        tilemap_set_tile map i (uint8_of_int j) = some r.2) ∨
      (no_match image i tileset ∧ r.2 = map ∧ r.1 = if tileset.num_tiles ≤ 0 then 1 else 0) := by
  rcases tilemap_generate_scan_spec image i tileset _ _ _ _ _ h with
    ⟨k, hk, hbefore, hat, hr1, hset⟩ | ⟨hall, hmap, hr1⟩
  · left
    refine ⟨(k : Int), ⟨by omega, by omega, by simpa using hat, ?_⟩, hr1, by simpa using hset⟩
    intro j1 h0 h1
    have := hbefore j1.toNat (by omega)
    rw [← this]; congr 1; omega
  · right
    refine ⟨?_, hmap, ?_⟩
    · intro j h0 h1
      have := hall j.toNat (by omega)
      rw [← this]; congr 1; omega
    · rw [hr1]
      by_cases hz : tileset.num_tiles ≤ 0
      · have : (tileset.num_tiles - 0).toNat = 0 := by omega
        simp [this, hz]
      · have : (tileset.num_tiles - 0).toNat ≠ 0 := by omega
        simp [this, hz]

/-- The outer loop, from map tile `i` on with `left` tiles to go. Entries below `i` are kept.
Either every tile from `i` on is resolved to its first match (or the tileset has no tile), or
the loop stops at the first tile without a match, reports it, and the tiles before it are
resolved. -/
theorem tilemap_generate_tiles_spec (image tileset : tiled_image) :
    ∀ (left : Nat) (i : Int) (map : tilemap) (g : generated), 0 ≤ i →
      tilemap_generate_tiles image tileset left i map = some g →
      (g.map.size = map.size ∧ g.map.data.map List.length = map.data.map List.length ∧
        ∀ p : Int, p < i → byte_at g.map.data p = byte_at map.data p) ∧
      ((g.retval = 0 ∧ g.out = [] ∧ ∀ k : Nat, k < left →
          tileset.num_tiles ≤ 0 ∨ ∃ j : Int, first_match image (i + k) tileset j ∧
            byte_at g.map.data (i + k) = some (uint8_of_int j)) ∨
        (∃ k : Nat, k < left ∧ g.retval = -1 ∧ g.out = [event.unmatched_tile (i + k)] ∧
          0 < tileset.num_tiles ∧ no_match image (i + k) tileset ∧
          ∀ k1 : Nat, k1 < k → ∃ j : Int, first_match image (i + k1) tileset j ∧
            byte_at g.map.data (i + k1) = some (uint8_of_int j))) := by
  intro left
  induction left with
  | zero =>
    intro i map g hi h
    simp [tilemap_generate_tiles] at h
    subst h
    simp
  | succ n ih =>
    intro i map g hi h
    simp only [tilemap_generate_tiles] at h
    split at h
    · cases h
    · rename_i matched map1 hscan
      rcases tilemap_generate_scan_zero hscan with ⟨j, hfm, hm, hset⟩ | ⟨hno, hmap, hm⟩
      · simp only at hm hset
        subst hm
        simp only [one_ne_zero, if_false] at h
        obtain ⟨hsz, hlen, hat, hframe⟩ := tilemap_set_tile_spec hset
        obtain ⟨⟨gsz, glen, gframe⟩, hres⟩ := ih (i + 1) map1 g (by omega) h
        refine ⟨⟨by rw [gsz, hsz], by rw [glen, hlen], ?_⟩, ?_⟩
        · intro p hp
          rw [gframe p (by omega), hframe p (by omega)]
        · have hat_i : byte_at g.map.data i = some (uint8_of_int j) := by
            rw [gframe i (by omega), hat]
          rcases hres with ⟨g0, gout, gall⟩ | ⟨k, hk, g1, gout, hpos, gno, gbefore⟩
          · left
            refine ⟨g0, gout, ?_⟩
            intro k hk
            cases k with
            | zero => right; exact ⟨j, by simpa using hfm, by simpa using hat_i⟩
            | succ k2 =>
              have := gall k2 (by omega)
              have e : i + 1 + (k2 : Int) = i + ((k2 + 1 : Nat) : Int) := by push_cast; ring
              rw [e] at this
              exact this
          · right
            have e : i + 1 + (k : Int) = i + ((k + 1 : Nat) : Int) := by push_cast; ring
            rw [e] at gout gno
            refine ⟨k + 1, by omega, g1, gout, hpos, gno, ?_⟩
            intro k1 hk1
            cases k1 with
            | zero => exact ⟨j, by simpa using hfm, by simpa using hat_i⟩
            | succ k2 =>
              have := gbefore k2 (by omega)
              have e2 : i + 1 + (k2 : Int) = i + ((k2 + 1 : Nat) : Int) := by push_cast; ring
              rw [e2] at this
              exact this
      · simp only at hm hmap
        have hmap1 := hmap.symm
        subst hmap1
        by_cases hz : tileset.num_tiles ≤ 0
        · simp only [hz, if_true] at hm
          subst hm
          simp only [one_ne_zero, if_false] at h
          obtain ⟨⟨gsz, glen, gframe⟩, hres⟩ := ih (i + 1) map g (by omega) h
          refine ⟨⟨gsz, glen, fun p hp => gframe p (by omega)⟩, ?_⟩
          rcases hres with ⟨g0, gout, gall⟩ | ⟨k, hk, g1, gout, hpos, gno, gbefore⟩
          · left
            exact ⟨g0, gout, fun k hk => Or.inl hz⟩
          · omega
        · simp only [hz, if_false] at hm
          subst hm
          simp only [if_true] at h
          simp at h
          subst h
          refine ⟨⟨rfl, rfl, fun p hp => rfl⟩, ?_⟩
          right
          exact ⟨0, by omega, rfl, by simp, by omega, by simpa using hno, fun k1 hk1 => by omega⟩

theorem load_bytes_spec {data : Option (List Nat)} {off : Int} {n : Nat} {s : List Nat}
    (h : load_bytes data off n = some s) :
    s.length = n ∧ 0 ≤ off ∧ (∃ d, data = some d ∧ off + n ≤ d.length) ∧
      ∀ k : Nat, k < n → s[k]? = byte_at data (off + k) := by
  unfold load_bytes at h
  split at h
  · cases h
  · rename_i d
    split at h
    · rename_i hb
      simp only [Option.some.injEq] at h
      subst h
      refine ⟨?_, hb.1, ⟨d, rfl, by omega⟩, ?_⟩
      · simp; omega
      · intro k hk
        have h0 : (0 : Int) ≤ off + k := by omega
        simp only [byte_at, h0, if_true, List.getElem?_take, hk, List.getElem?_drop]
        congr 1; omega
    · cases h

theorem load_bytes_defined {d : List Nat} {off : Int} {n : Nat} (h0 : 0 ≤ off)
    (h1 : off + n ≤ d.length) : ∃ s, load_bytes (some d) off n = some s := by
  have : off.toNat + n ≤ d.length := by omega
  exact ⟨(d.drop off.toNat).take n, by simp [load_bytes, h0, this]⟩

theorem bytes_cmp_eq_zero_iff : ∀ (a b : List Nat), a.length = b.length →
    (bytes_cmp a b = 0 ↔ a = b)
  | [], [], _ => by simp [bytes_cmp]
  | [], _ :: _, h => by simp at h
  | _ :: _, [], h => by simp at h
  | x :: xs, y :: ys, h => by
    have ih := bytes_cmp_eq_zero_iff xs ys (by simpa using h)
    simp only [bytes_cmp]
    by_cases h1 : x < y
    · simp [h1]; omega
    · by_cases h2 : y < x
      · simp [h1, h2]; omega
      · have : x = y := by omega
        simp [h1, h2, this, ih]

/-- Every value that `tiled_image_get_pixel_row` computes for a valid tile and row of a
well-formed image lies between 0 and the length of the buffer. -/
theorem pixel_row_steps_bounded {img : tiled_image} (hw : well_formed img) {t r : Int}
    (ht0 : 0 ≤ t) (ht1 : t < img.num_tiles) (hr0 : 0 ≤ r) (hr1 : r < 8) :
    ∀ v ∈ pixel_row_steps img t r, 0 ≤ v ∧ v ≤ img.w_px * img.h_px * 4 := by
  obtain ⟨hwp, hhp, hwm, hhm, hwt, hht, hnt, hd⟩ := hw
  have hW : 0 < img.w_tiles := by omega
  have hH : 0 < img.h_tiles := by omega
  have hwpx : img.w_px = 8 * img.w_tiles := by omega
  have hhpx : img.h_px = 8 * img.h_tiles := by omega
  have hm0 : 0 ≤ t % img.w_tiles := Int.emod_nonneg _ (by omega)
  have hm1 : t % img.w_tiles < img.w_tiles := Int.emod_lt_of_pos _ hW
  have hq0 : 0 ≤ t / img.w_tiles := Int.ediv_nonneg ht0 (by omega)
  have hq1 : t / img.w_tiles < img.h_tiles :=
    Int.ediv_lt_of_lt_mul hW (by rw [hnt, mul_comm] at ht1; exact ht1)
  have hqW0 : 0 ≤ t / img.w_tiles * img.w_tiles := mul_nonneg hq0 (by omega)
  have hqW1 : t / img.w_tiles * img.w_tiles ≤ (img.h_tiles - 1) * img.w_tiles :=
    mul_le_mul_of_nonneg_right (by omega) (by omega)
  have hrW0 : 0 ≤ r * img.w_tiles := mul_nonneg hr0 (by omega)
  have hrW1 : r * img.w_tiles ≤ 7 * img.w_tiles :=
    mul_le_mul_of_nonneg_right (by omega) (by omega)
  have hHW : img.w_tiles ≤ img.h_tiles * img.w_tiles := by nlinarith
  have hWH : img.h_tiles ≤ img.h_tiles * img.w_tiles := by nlinarith
  intro v hv
  simp only [pixel_row_steps, pixel_row_ints, Int.tdiv_eq_ediv ht0 (le_of_lt hW),
    Int.tmod_eq_emod ht0 (le_of_lt hW), PIXEL_SIZE_B, COMPONENTS, COMPONENT_SIZE_B,
    TILE_HEIGHT_PX, TILE_WIDTH_PX, List.cons_append, List.nil_append, List.mem_cons,
    List.mem_singleton, List.not_mem_nil, or_false] at hv
  rw [hwpx, hhpx]
  rw [hwpx] at hv
  rcases hv with h | h | h | h | h | h | h | h | h | h | h <;> subst h <;> constructor <;>
    linarith

/-- On a well-formed image whose buffer length fits an `int`, every `int` value that
`tiled_image_get_pixel_row` computes for a valid tile and row fits an `int`. -/
theorem pixel_row_ints_fit {img : tiled_image} (hw : well_formed img)
    (hfit : img.w_px * img.h_px * 4 < 2 ^ 31) {t r : Int} (ht0 : 0 ≤ t)
    (ht1 : t < img.num_tiles) (hr0 : 0 ≤ r) (hr1 : r < 8) :
    ∀ v ∈ pixel_row_ints img t r, fits_int v := by
  intro v hv
  have hb := pixel_row_steps_bounded hw ht0 ht1 hr0 hr1 v (by
    unfold pixel_row_steps
    exact List.mem_append_left _ hv)
  unfold fits_int
  omega

/-- The sum that `tiled_image_get_pixel_row` returns is the offset of the specification. -/
theorem pixel_row_sum (img : tiled_image) {t : Int} (r : Int) (ht0 : 0 ≤ t)
    (hW : 0 < img.w_tiles) :
    Int.tdiv t img.w_tiles * img.w_px * PIXEL_SIZE_B * TILE_HEIGHT_PX +
        Int.tmod t img.w_tiles * TILE_WIDTH_PX * PIXEL_SIZE_B + r * img.w_px * PIXEL_SIZE_B =
      row_offset img t r := by
  simp only [row_offset, Int.tdiv_eq_ediv ht0 (le_of_lt hW), Int.tmod_eq_emod ht0 (le_of_lt hW),
    PIXEL_SIZE_B, COMPONENTS, COMPONENT_SIZE_B, TILE_HEIGHT_PX, TILE_WIDTH_PX]
  ring

/-- Whenever `tiled_image_get_pixel_row` is defined on a tile of a well-formed image, its
result is the offset of the specification. -/
theorem pixel_row_value {img : tiled_image} (hw : well_formed img) {t r p : Int} (ht0 : 0 ≤ t)
    (h : tiled_image_get_pixel_row img t r = some p) : p = row_offset img t r := by
  have hW : 0 < img.w_tiles := by
    obtain ⟨hwp, _, hwm, _, hwt, _⟩ := hw
    omega
  have hne : img.w_tiles ≠ 0 := by omega
  unfold tiled_image_get_pixel_row at h
  simp only [hne, if_false] at h
  split at h
  · cases h
  · simp only [Option.some.injEq] at h
    rw [← h]
    exact pixel_row_sum img r ht0 hW

theorem row_offset_bounds {img : tiled_image} (hw : well_formed img) {t r : Int} (ht0 : 0 ≤ t)
    (ht1 : t < img.num_tiles) (hr0 : 0 ≤ r) (hr1 : r < 8) :
    0 ≤ row_offset img t r ∧ row_offset img t r + 32 ≤ img.w_px * img.h_px * 4 := by
  obtain ⟨hwp, hhp, hwm, hhm, hwt, hht, hnt, hd⟩ := hw
  have hW : 0 < img.w_tiles := by omega
  have hH : 0 < img.h_tiles := by omega
  have hwpx : img.w_px = 8 * img.w_tiles := by omega
  have hhpx : img.h_px = 8 * img.h_tiles := by omega
  have hm0 : 0 ≤ t % img.w_tiles := Int.emod_nonneg _ (by omega)
  have hm1 : t % img.w_tiles < img.w_tiles := Int.emod_lt_of_pos _ hW
  have hq0 : 0 ≤ t / img.w_tiles := Int.ediv_nonneg ht0 (by omega)
  have hq1 : t / img.w_tiles < img.h_tiles :=
    Int.ediv_lt_of_lt_mul hW (by rw [hnt, mul_comm] at ht1; exact ht1)
  refine ⟨?_, ?_⟩
  · unfold row_offset
    have : 0 ≤ (8 * (t / img.w_tiles) + r) * img.w_px := mul_nonneg (by omega) (by omega)
    omega
  · unfold row_offset
    have h1 : (8 * (t / img.w_tiles) + r) * img.w_tiles ≤ (8 * img.h_tiles - 1) * img.w_tiles :=
      mul_le_mul_of_nonneg_right (by omega) (by omega)
    rw [hwpx, hhpx]
    nlinarith

/-- On a well-formed image whose buffer length fits an `int`, `tiled_image_get_pixel_row` is
defined for every valid tile and row, and returns the offset of the specification, which lies
in the buffer with the 32 bytes that follow. -/
theorem pixel_row_spec {img : tiled_image} (hw : well_formed img)
    (hfit : img.w_px * img.h_px * 4 < 2 ^ 31) {t r : Int} (ht0 : 0 ≤ t)
    (ht1 : t < img.num_tiles) (hr0 : 0 ≤ r) (hr1 : r < 8) :
    tiled_image_get_pixel_row img t r = some (row_offset img t r) ∧ 0 ≤ row_offset img t r ∧
      row_offset img t r + 32 ≤ img.w_px * img.h_px * 4 := by
  have hW : 0 < img.w_tiles := by
    obtain ⟨hwp, _, hwm, _, hwt, _⟩ := hw
    omega
  have hne : img.w_tiles ≠ 0 := by omega
  have hints := pixel_row_ints_fit hw hfit ht0 ht1 hr0 hr1
  refine ⟨?_, row_offset_bounds hw ht0 ht1 hr0 hr1⟩
  unfold tiled_image_get_pixel_row
  simp only [hne, if_false, if_neg (not_not.mpr hints)]
  rw [pixel_row_sum img r ht0 hW]

theorem row_bytes_toNat : (TILE_WIDTH_PX * PIXEL_SIZE_B).toNat = 32 := by decide

theorem tile_height_toNat : (TILE_HEIGHT_PX - 0).toNat = 8 := by decide

theorem memcmp_eq_zero_iff {d1 d2 : Option (List Nat)} {p1 p2 : Int} {n : Nat} {c : Int}
    (h : memcmp d1 p1 d2 p2 n = some c) :
    ∃ s1 s2, load_bytes d1 p1 n = some s1 ∧ load_bytes d2 p2 n = some s2 ∧
      (c = 0 ↔ s1 = s2) := by
  unfold memcmp at h
  split at h
  · cases h
  · rename_i s1 h1
    split at h
    · cases h
    · rename_i s2 h2
      simp only [Option.some.injEq] at h
      subst h
      refine ⟨s1, s2, h1, h2, ?_⟩
      exact bytes_cmp_eq_zero_iff s1 s2
        (by rw [(load_bytes_spec h1).1, (load_bytes_spec h2).1])

theorem memcmp_defined {d1 d2 : Option (List Nat)} {p1 p2 : Int} {n : Nat} {s1 s2 : List Nat}
    (h1 : load_bytes d1 p1 n = some s1) (h2 : load_bytes d2 p2 n = some s2) :
    memcmp d1 p1 d2 p2 n = some (bytes_cmp s1 s2) := by
  simp [memcmp, h1, h2]

/-- The row loop returns 1 exactly when every remaining row can be read in both images and is
the same in both. -/
theorem is_tile_equal_rows_eq_one_iff (A : tiled_image) (a : Int) (B : tiled_image) (b : Int) :
    ∀ (left : Nat) (row : Int), is_tile_equal_rows A a B b left row = some 1 ↔
      ∀ k : Nat, k < left → rows_equal A a B b (row + k) := by
  intro left
  induction left with
  | zero => intro row; simp [is_tile_equal_rows]
  | succ n ih =>
    intro row
    have hshift : (∀ k : Nat, k < n → rows_equal A a B b (row + 1 + k)) ↔
        ∀ k : Nat, k < n → rows_equal A a B b (row + ((k + 1 : Nat) : Int)) := by
      constructor
      · intro h k hk
        have := h k hk
        have e : row + 1 + (k : Int) = row + ((k + 1 : Nat) : Int) := by push_cast; ring
        rwa [e] at this
      · intro h k hk
        have := h k hk
        have e : row + 1 + (k : Int) = row + ((k + 1 : Nat) : Int) := by push_cast; ring
        rwa [e]
    constructor
    · intro h
      simp only [is_tile_equal_rows, row_bytes_toNat] at h
      split at h
      · cases h
      · rename_i p1 hp1
        split at h
        · cases h
        · rename_i p2 hp2
          split at h
          · cases h
          · rename_i c hc
            obtain ⟨s1, s2, hs1, hs2, hiff⟩ := memcmp_eq_zero_iff hc
            split at h
            · simp at h
            · rename_i hc0
              have hc1 : c = 0 := by simpa using hc0
              have hs : s1 = s2 := hiff.mp hc1
              subst hs
              have hrest := (hshift.mp ((ih (row + 1)).mp h))
              intro k hk
              cases k with
              | zero => exact ⟨p1, p2, s1, by simpa using hp1, by simpa using hp2, hs1, hs2⟩
              | succ k2 => exact hrest k2 (by omega)
    · intro h
      obtain ⟨p1, p2, s, hp1, hp2, hs1, hs2⟩ := h 0 (by omega)
      simp only [Nat.cast_zero, add_zero] at hp1 hp2
      have hrest : is_tile_equal_rows A a B b n (row + 1) = some 1 :=
        (ih (row + 1)).mpr (hshift.mpr (fun k hk => h (k + 1) (by omega)))
      have hc : memcmp A.data p1 B.data p2 32 = some 0 := by
        rw [memcmp_defined hs1 hs2, (bytes_cmp_eq_zero_iff s s rfl).mpr rfl]
      simp [is_tile_equal_rows, row_bytes_toNat, hp1, hp2, hc, hrest]

/-- The row loop returns a value when every remaining row can be read in both images. -/
theorem is_tile_equal_rows_defined (A : tiled_image) (a : Int) (B : tiled_image) (b : Int) :
    ∀ (left : Nat) (row : Int), (∀ k : Nat, k < left → rows_defined A a B b (row + k)) →
      ∃ v, is_tile_equal_rows A a B b left row = some v := by
  intro left
  induction left with
  | zero => intro row _; exact ⟨1, rfl⟩
  | succ n ih =>
    intro row h
    obtain ⟨p1, p2, s1, s2, hp1, hp2, hs1, hs2⟩ := h 0 (by omega)
    simp only [Nat.cast_zero, add_zero] at hp1 hp2
    have hrest : ∃ v, is_tile_equal_rows A a B b n (row + 1) = some v := by
      apply ih
      intro k hk
      have := h (k + 1) (by omega)
      have e : row + 1 + (k : Int) = row + ((k + 1 : Nat) : Int) := by push_cast; ring
      rwa [e]
    obtain ⟨v, hv⟩ := hrest
    simp only [is_tile_equal_rows, row_bytes_toNat, hp1, hp2, memcmp_defined hs1 hs2]
    by_cases hc : bytes_cmp s1 s2 ≠ 0
    · exact ⟨0, by simp [hc]⟩
    · exact ⟨v, by simp [hc, hv]⟩

theorem well_formed_data {img : tiled_image} (hw : well_formed img) :
    ∃ d : List Nat, img.data = some d ∧ (d.length : Int) = img.w_px * img.h_px * 4 := by
  obtain ⟨_, _, _, _, _, _, _, hd⟩ := hw
  cases hdata : img.data with
  | none => simp [hdata] at hd
  | some d => exact ⟨d, rfl, by simpa [hdata] using hd⟩

theorem tile_byte_eq (img : tiled_image) (t x y c : Int) :
    tile_byte img t x y c = byte_at img.data (row_offset img t y + (4 * x + c)) := by
  unfold tile_byte pixel_byte row_offset
  congr 1; ring

/-- A row of a valid tile of a well-formed image can be read, and its 32 bytes are the
channels of the 8 pixels of that row of the tile. -/
theorem row_bytes_spec {img : tiled_image} (hw : well_formed img) {t r : Int} (ht0 : 0 ≤ t)
    (ht1 : t < img.num_tiles) (hr0 : 0 ≤ r) (hr1 : r < 8) :
    ∃ s : List Nat, load_bytes img.data (row_offset img t r) 32 = some s ∧ s.length = 32 ∧
      (∀ k : Nat, k < 32 → s[k]? = byte_at img.data (row_offset img t r + k)) ∧
      ∀ k : Nat, k < 32 → ∃ v, s[k]? = some v := by
  obtain ⟨d, hd, hlen⟩ := well_formed_data hw
  obtain ⟨h0, h1⟩ := row_offset_bounds hw ht0 ht1 hr0 hr1
  obtain ⟨s, hs⟩ := load_bytes_defined (d := d) (n := 32) h0 (by push_cast; omega)
  rw [← hd] at hs
  obtain ⟨hl, _, _, hk⟩ := load_bytes_spec hs
  refine ⟨s, hs, hl, hk, ?_⟩
  intro k hk32
  exact ⟨s[k], by rw [List.getElem?_eq_getElem (by omega)]⟩

/-- Two rows that `is_tile_equal` found equal hold the same bytes. -/
theorem rows_equal_imp {A B : tiled_image} (hA : well_formed A) (hB : well_formed B)
    {a b r : Int} (ha0 : 0 ≤ a) (ha1 : a < A.num_tiles) (hb0 : 0 ≤ b) (hb1 : b < B.num_tiles)
    (hr0 : 0 ≤ r) (hr1 : r < 8) (h : rows_equal A a B b r) :
    ∀ x c : Int, 0 ≤ x → x < 8 → 0 ≤ c → c < 4 →
      tile_byte A a x r c = tile_byte B b x r c := by
  obtain ⟨sA, hsA, hlA, hkA, _⟩ := row_bytes_spec hA ha0 ha1 hr0 hr1
  obtain ⟨sB, hsB, hlB, hkB, _⟩ := row_bytes_spec hB hb0 hb1 hr0 hr1
  obtain ⟨p1, p2, s, hp1, hp2, hs1, hs2⟩ := h
  intro x c hx0 hx1 hc0 hc1
  have e1 := pixel_row_value hA ha0 hp1
  have e2 := pixel_row_value hB hb0 hp2
  subst e1 e2
  rw [hsA] at hs1
  rw [hsB] at hs2
  simp only [Option.some.injEq] at hs1 hs2
  subst hs1
  rw [tile_byte_eq, tile_byte_eq]
  have e : (4 * x + c) = (((4 * x + c).toNat : Nat) : Int) := by omega
  rw [e, ← hkA _ (by omega), ← hkB _ (by omega), hs2]

theorem rows_equal_iff {A B : tiled_image} (hA : well_formed A) (hB : well_formed B)
    (hfA : A.w_px * A.h_px * 4 < 2 ^ 31) (hfB : B.w_px * B.h_px * 4 < 2 ^ 31)
    {a b r : Int} (ha0 : 0 ≤ a) (ha1 : a < A.num_tiles) (hb0 : 0 ≤ b) (hb1 : b < B.num_tiles)
    (hr0 : 0 ≤ r) (hr1 : r < 8) :
    rows_equal A a B b r ↔ ∀ x c : Int, 0 ≤ x → x < 8 → 0 ≤ c → c < 4 →
      tile_byte A a x r c = tile_byte B b x r c := by
  have hpA := (pixel_row_spec hA hfA ha0 ha1 hr0 hr1).1
  have hpB := (pixel_row_spec hB hfB hb0 hb1 hr0 hr1).1
  obtain ⟨sA, hsA, hlA, hkA, _⟩ := row_bytes_spec hA ha0 ha1 hr0 hr1
  obtain ⟨sB, hsB, hlB, hkB, _⟩ := row_bytes_spec hB hb0 hb1 hr0 hr1
  constructor
  · exact rows_equal_imp hA hB ha0 ha1 hb0 hb1 hr0 hr1
  · intro h
    refine ⟨_, _, sA, hpA, hpB, hsA, ?_⟩
    rw [hsB]
    congr 1
    apply List.ext_getElem?
    intro k
    by_cases hk : k < 32
    · rw [hkA k hk, hkB k hk]
      have := h ((k : Int) / 4) ((k : Int) % 4) (by omega) (by omega) (by omega) (by omega)
      rw [tile_byte_eq, tile_byte_eq] at this
      have e : 4 * ((k : Int) / 4) + (k : Int) % 4 = (k : Int) := by omega
      rw [e] at this
      exact this.symm
    · rw [List.getElem?_eq_none (by omega), List.getElem?_eq_none (by omega)]

theorem rows_defined_of_well_formed {A B : tiled_image} (hA : well_formed A)
    (hB : well_formed B) (hfA : A.w_px * A.h_px * 4 < 2 ^ 31)
    (hfB : B.w_px * B.h_px * 4 < 2 ^ 31) {a b r : Int} (ha0 : 0 ≤ a) (ha1 : a < A.num_tiles)
    (hb0 : 0 ≤ b) (hb1 : b < B.num_tiles) (hr0 : 0 ≤ r) (hr1 : r < 8) :
    rows_defined A a B b r := by
  obtain ⟨sA, hsA, _⟩ := row_bytes_spec hA ha0 ha1 hr0 hr1
  obtain ⟨sB, hsB, _⟩ := row_bytes_spec hB hb0 hb1 hr0 hr1
  exact ⟨_, _, sA, sB, (pixel_row_spec hA hfA ha0 ha1 hr0 hr1).1,
    (pixel_row_spec hB hfB hb0 hb1 hr0 hr1).1, hsA, hsB⟩

/-- On valid tiles of well-formed images whose buffer lengths fit an `int`, the comparison
returns 0 or 1. -/
theorem is_tile_equal_defined {A B : tiled_image} (hA : well_formed A) (hB : well_formed B)
    (hfA : A.w_px * A.h_px * 4 < 2 ^ 31) (hfB : B.w_px * B.h_px * 4 < 2 ^ 31)
    {a b : Int} (ha0 : 0 ≤ a) (ha1 : a < A.num_tiles) (hb0 : 0 ≤ b) (hb1 : b < B.num_tiles) :
    is_tile_equal A a B b = some 1 ∨ is_tile_equal A a B b = some 0 := by
  have hdef : ∃ v, is_tile_equal A a B b = some v := by
    unfold is_tile_equal
    rw [tile_height_toNat]
    apply is_tile_equal_rows_defined
    intro k hk
    exact rows_defined_of_well_formed hA hB hfA hfB ha0 ha1 hb0 hb1 (by omega) (by omega)
  obtain ⟨v, hv⟩ := hdef
  rcases is_tile_equal_cases hv with h | h
  · right; rw [hv, h]
  · left; rw [hv, h]

/-- Two valid tiles of well-formed images that the comparison found equal hold the same
bytes. -/
theorem is_tile_equal_eq_one_imp {A B : tiled_image} (hA : well_formed A) (hB : well_formed B)
    {a b : Int} (ha0 : 0 ≤ a) (ha1 : a < A.num_tiles) (hb0 : 0 ≤ b) (hb1 : b < B.num_tiles)
    (h : is_tile_equal A a B b = some 1) :
    ∀ x y c : Int, 0 ≤ x → x < 8 → 0 ≤ y → y < 8 → 0 ≤ c → c < 4 →
      tile_byte A a x y c = tile_byte B b x y c := by
  unfold is_tile_equal at h
  rw [tile_height_toNat, is_tile_equal_rows_eq_one_iff] at h
  intro x y c hx0 hx1 hy0 hy1 hc0 hc1
  have hr := h y.toNat (by omega)
  have e : (0 : Int) + ((y.toNat : Nat) : Int) = y := by omega
  rw [e] at hr
  exact rows_equal_imp hA hB ha0 ha1 hb0 hb1 hy0 hy1 hr x c hx0 hx1 hc0 hc1

/-- On valid tiles of well-formed images whose buffer lengths fit an `int`, the comparison
returns 1 exactly when the two tiles hold the same bytes. -/
theorem is_tile_equal_eq_one_iff {A B : tiled_image} (hA : well_formed A) (hB : well_formed B)
    (hfA : A.w_px * A.h_px * 4 < 2 ^ 31) (hfB : B.w_px * B.h_px * 4 < 2 ^ 31)
    {a b : Int} (ha0 : 0 ≤ a) (ha1 : a < A.num_tiles) (hb0 : 0 ≤ b) (hb1 : b < B.num_tiles) :
    is_tile_equal A a B b = some 1 ↔
      ∀ x y c : Int, 0 ≤ x → x < 8 → 0 ≤ y → y < 8 → 0 ≤ c → c < 4 →
        tile_byte A a x y c = tile_byte B b x y c := by
  constructor
  · exact is_tile_equal_eq_one_imp hA hB ha0 ha1 hb0 hb1
  · intro h
    unfold is_tile_equal
    rw [tile_height_toNat, is_tile_equal_rows_eq_one_iff]
    intro k hk
    apply (rows_equal_iff hA hB hfA hfB ha0 ha1 hb0 hb1 (by omega) (by omega)).mpr
    intro x c hx0 hx1 hc0 hc1
    exact h x _ c hx0 hx1 (by omega) (by omega) hc0 hc1

/-! ## What `tilemap_generate` returns -/

theorem uint8_of_int_eq {j : Int} (h0 : 0 ≤ j) (h1 : j < 256) :
    uint8_of_int j = j.toNat ∧ ((uint8_of_int j : Nat) : Int) = j := by
  unfold uint8_of_int
  omega

/-- Whenever `tilemap_generate` returns, it has either resolved every map tile to its first
match (or the tileset has no tile, and nothing was stored), or stopped at the lowest map tile
without a match, reported it and resolved the tiles before it. -/
theorem tilemap_generate_spec {map : tilemap} {image tileset : tiled_image} {g : generated}
    (h : tilemap_generate map image tileset = some g) :
    (g.retval = 0 ∧ g.out = [] ∧ ∀ i : Int, 0 ≤ i → i < image.num_tiles →
        tileset.num_tiles ≤ 0 ∨ ∃ j : Int, first_match image i tileset j ∧
          byte_at g.map.data i = some (uint8_of_int j)) ∨
      (∃ i : Int, 0 ≤ i ∧ i < image.num_tiles ∧ g.retval = -1 ∧
        g.out = [event.unmatched_tile i] ∧ 0 < tileset.num_tiles ∧ no_match image i tileset ∧
        ∀ i1 : Int, 0 ≤ i1 → i1 < i → ∃ j : Int, first_match image i1 tileset j ∧
          byte_at g.map.data i1 = some (uint8_of_int j)) := by
  unfold tilemap_generate at h
  obtain ⟨_, hres⟩ := tilemap_generate_tiles_spec image tileset _ 0 map g (le_refl 0) h
  rcases hres with ⟨g0, gout, gall⟩ | ⟨k, hk, g1, gout, hpos, gno, gbefore⟩
  · left
    refine ⟨g0, gout, ?_⟩
    intro i hi0 hi1
    have := gall i.toNat (by omega)
    have e : (0 : Int) + ((i.toNat : Nat) : Int) = i := by omega
    rwa [e] at this
  · right
    have e : (0 : Int) + (k : Int) = (k : Int) := by omega
    rw [e] at gout gno
    refine ⟨(k : Int), by omega, by omega, g1, gout, hpos, gno, ?_⟩
    intro i1 h0 h1
    have := gbefore i1.toNat (by omega)
    have e1 : (0 : Int) + ((i1.toNat : Nat) : Int) = i1 := by omega
    rwa [e1] at this

/-- First-match policy on a tileset that has a tile: after a successful `tilemap_generate`
the entry of every map tile is the index (as a byte) of the first tileset tile equal to it. -/
theorem first_match_of_success {map : tilemap} {image tileset : tiled_image} {g : generated}
    (hpos : 0 < tileset.num_tiles) (h : tilemap_generate map image tileset = some g)
    (hok : g.retval = 0) {i : Int} (hi0 : 0 ≤ i) (hi1 : i < image.num_tiles) :
    ∃ j : Int, first_match image i tileset j ∧
      byte_at g.map.data i = some (uint8_of_int j) := by
  rcases tilemap_generate_spec h with ⟨_, _, hall⟩ | ⟨_, _, _, g1, _⟩
  · rcases hall i hi0 hi1 with hz | hj
    · omega
    · exact hj
  · omega

theorem tile_byte_defined {img : tiled_image} (hw : well_formed img) {t x y c : Int}
    (ht0 : 0 ≤ t) (ht1 : t < img.num_tiles) (hx0 : 0 ≤ x) (hx1 : x < 8) (hy0 : 0 ≤ y)
    (hy1 : y < 8) (hc0 : 0 ≤ c) (hc1 : c < 4) : ∃ v : Nat, tile_byte img t x y c = some v := by
  obtain ⟨s, _, _, hk, hv⟩ := row_bytes_spec hw ht0 ht1 hy0 hy1
  obtain ⟨v, hvk⟩ := hv (4 * x + c).toNat (by omega)
  refine ⟨v, ?_⟩
  rw [tile_byte_eq, ← hvk, hk _ (by omega)]
  congr 2
  omega

/-- The tile that holds pixel `(x, y)` of a well-formed image, and the place of the pixel in
it. -/
theorem tile_of_pixel {img : tiled_image} (hw : well_formed img) {x y : Int} (hx0 : 0 ≤ x)
    (hx1 : x < img.w_px) (hy0 : 0 ≤ y) (hy1 : y < img.h_px) (c : Int) :
    0 ≤ y / 8 * img.w_tiles + x / 8 ∧ y / 8 * img.w_tiles + x / 8 < img.num_tiles ∧
      tile_byte img (y / 8 * img.w_tiles + x / 8) (x % 8) (y % 8) c = pixel_byte img x y c := by
  obtain ⟨hwp, hhp, hwm, hhm, hwt, hht, hnt, hd⟩ := hw
  have hW : 0 < img.w_tiles := by omega
  have hx8 : x / 8 < img.w_tiles := by omega
  have hy8 : y / 8 < img.h_tiles := by omega
  have hx80 : 0 ≤ x / 8 := by omega
  have hy80 : 0 ≤ y / 8 := by omega
  have hdiv : (y / 8 * img.w_tiles + x / 8) / img.w_tiles = y / 8 := by
    rw [add_comm, Int.add_mul_ediv_right _ _ (by omega), Int.ediv_eq_zero_of_lt hx80 hx8]
    simp
  have hmod : (y / 8 * img.w_tiles + x / 8) % img.w_tiles = x / 8 := by
    rw [add_comm, Int.add_mul_emod_self, Int.emod_eq_of_lt hx80 hx8]
  refine ⟨?_, ?_, ?_⟩
  · have : 0 ≤ y / 8 * img.w_tiles := mul_nonneg hy80 (by omega)
    omega
  · have : y / 8 * img.w_tiles ≤ (img.h_tiles - 1) * img.w_tiles :=
      mul_le_mul_of_nonneg_right (by omega) (by omega)
    rw [hnt]
    nlinarith
  · unfold tile_byte
    rw [hdiv, hmod]
    congr 1 <;> omega

/-! ## `tilemap_generate` returns -/

theorem tilemap_set_tile_defined {map : tilemap} {d : List Nat} (hd : map.data = some d)
    {i : Int} (hi0 : 0 ≤ i) (hi1 : i < d.length) (v : Nat) :
    ∃ map1 : tilemap, tilemap_set_tile map i v = some map1 := by
  have : i.toNat < d.length := by omega
  exact ⟨{ map with data := some (d.set i.toNat v) }, by simp [tilemap_set_tile, hd, hi0, this]⟩

/-- The inner loop returns when every comparison it makes is defined and entry `i` lies in the
tilemap buffer. -/
theorem tilemap_generate_scan_defined (image : tiled_image) (i : Int) (tileset : tiled_image) :
    ∀ (left : Nat) (j matched : Int) (map : tilemap) (d : List Nat), map.data = some d →
      0 ≤ i → i < d.length →
      (∀ k : Nat, k < left → ∃ v, is_tile_equal image i tileset (j + k) = some v) →
      ∃ r, tilemap_generate_scan image i tileset left j matched map = some r := by
  intro left
  induction left with
  | zero => intro j matched map d _ _ _ _; exact ⟨(matched, map), rfl⟩
  | succ n ih =>
    intro j matched map d hd hi0 hi1 hall
    obtain ⟨v, hv⟩ := hall 0 (by omega)
    simp only [Nat.cast_zero, add_zero] at hv
    simp only [tilemap_generate_scan, hv]
    by_cases hne : v ≠ 0
    · obtain ⟨map1, hset⟩ := tilemap_set_tile_defined hd hi0 hi1 (uint8_of_int j)
      exact ⟨(v, map1), by simp [hne, hset]⟩
    · have hrest := ih (j + 1) v map d hd hi0 hi1 (by
        intro k hk
        have := hall (k + 1) (by omega)
        have e : j + 1 + (k : Int) = j + ((k + 1 : Nat) : Int) := by push_cast; ring
        rwa [e])
      obtain ⟨r, hr⟩ := hrest
      exact ⟨r, by simp [hne, hr]⟩

/-- The outer loop returns when every comparison is defined and the tiles that are left have
their entries in the tilemap buffer. -/
theorem tilemap_generate_tiles_defined (image tileset : tiled_image) :
    ∀ (left : Nat) (i : Int) (map : tilemap) (d : List Nat), map.data = some d → 0 ≤ i →
      i + left ≤ d.length →
      (∀ k : Nat, k < left → ∀ j : Int, 0 ≤ j → j < tileset.num_tiles →
        ∃ v, is_tile_equal image (i + k) tileset j = some v) →
      ∃ g, tilemap_generate_tiles image tileset left i map = some g := by
  intro left
  induction left with
  | zero => intro i map d _ _ _ _; exact ⟨_, rfl⟩
  | succ n ih =>
    intro i map d hd hi0 hi1 hall
    have hscan := tilemap_generate_scan_defined image i tileset (tileset.num_tiles - 0).toNat 0 1
      map d hd hi0 (by push_cast at hi1; omega) (by
        intro k hk
        have := hall 0 (by omega) k (by omega) (by omega)
        simpa using this)
    obtain ⟨⟨matched, map1⟩, hr⟩ := hscan
    simp only [tilemap_generate_tiles, hr]
    by_cases hm : matched = 0
    · exact ⟨{ retval := -1, map := map1, out := [event.unmatched_tile i] }, by simp [hm]⟩
    · have hlen : map1.data.map List.length = map.data.map List.length := by
        rcases tilemap_generate_scan_zero hr with ⟨j, _, _, hset⟩ | ⟨_, hmap, _⟩
        · exact (tilemap_set_tile_spec hset).2.1
        · simp only at hmap; rw [hmap]
      cases hd1 : map1.data with
      | none => simp [hd1, hd] at hlen
      | some d1 =>
        have hl : d1.length = d.length := by simpa [hd1, hd] using hlen
        obtain ⟨g, hg⟩ := ih (i + 1) map1 d1 hd1 (by omega) (by push_cast at hi1; omega) (by
          intro k hk j hj0 hj1
          have := hall (k + 1) (by omega) j hj0 hj1
          have e : i + 1 + (k : Int) = i + ((k + 1 : Nat) : Int) := by push_cast; ring
          rwa [e])
        exact ⟨g, by simp [hm, hg]⟩

/-- On well-formed images, with a tilemap buffer that has an entry for every map tile,
`tilemap_generate` returns. -/
theorem tilemap_generate_defined {map : tilemap} {image tileset : tiled_image} {d : List Nat}
    (hI : well_formed image) (hT : well_formed tileset)
    (hfI : image.w_px * image.h_px * 4 < 2 ^ 31)
    (hfT : tileset.w_px * tileset.h_px * 4 < 2 ^ 31) (hd : map.data = some d)
    (hlen : image.num_tiles ≤ d.length) : ∃ g, tilemap_generate map image tileset = some g := by
  unfold tilemap_generate
  apply tilemap_generate_tiles_defined image tileset _ 0 map d hd (le_refl 0) (by omega)
  intro k hk j hj0 hj1
  rcases is_tile_equal_defined hI hT hfI hfT (a := 0 + (k : Int)) (b := j) (by omega) (by omega)
      hj0 hj1
    with h | h
  · exact ⟨1, h⟩
  · exact ⟨0, h⟩

/-- On well-formed images with a tilemap buffer that has an entry for every map tile,
`tilemap_generate` returns, and it returns an error exactly when some map tile equals no tile
of the tileset. -/
theorem tilemap_generate_error_iff {map : tilemap} {image tileset : tiled_image} {d : List Nat}
    (hI : well_formed image) (hT : well_formed tileset)
    (hfI : image.w_px * image.h_px * 4 < 2 ^ 31)
    (hfT : tileset.w_px * tileset.h_px * 4 < 2 ^ 31) (hd : map.data = some d)
    (hlen : image.num_tiles ≤ d.length) :
    ∃ g, tilemap_generate map image tileset = some g ∧ (g.retval = 0 ∨ g.retval = -1) ∧
      (g.retval = -1 ↔ ∃ i : Int, 0 ≤ i ∧ i < image.num_tiles ∧ no_match image i tileset) := by
  obtain ⟨g, hg⟩ := tilemap_generate_defined hI hT hfI hfT hd hlen
  refine ⟨g, hg, ?_⟩
  have hTpos : 0 < tileset.num_tiles := by
    obtain ⟨hwp, hhp, hwm, hhm, hwt, hht, hnt, _⟩ := hT
    rw [hnt]
    exact mul_pos (by omega) (by omega)
  rcases tilemap_generate_spec hg with ⟨g0, _, hall⟩ | ⟨i, hi0, hi1, g1, _, _, hno, _⟩
  · refine ⟨Or.inl g0, ?_⟩
    constructor
    · intro h; omega
    · rintro ⟨i, hi0, hi1, hno⟩
      rcases hall i hi0 hi1 with hz | ⟨j, hj, _⟩
      · omega
      · exact absurd hno (fun h => first_match_not_no_match hj h)
  · exact ⟨Or.inr g1, fun _ => ⟨i, hi0, hi1, hno⟩, fun _ => g1⟩

/-! ## Loading an image -/

theorem tmod_eight_ne_zero_iff (x : Int) : Int.tmod x 8 ≠ 0 ↔ x % 8 ≠ 0 := by
  rw [Ne, Ne, ← Int.dvd_iff_tmod_eq_zero, ← Int.dvd_iff_emod_eq_zero]

theorem tdiv_eight_eq (x : Int) (h : x % 8 = 0) : Int.tdiv x 8 = x / 8 :=
  Int.tdiv_eq_ediv_of_dvd (Int.dvd_of_emod_eq_zero h)

/-- What `tiled_image_load` does with an image that the decoder could read. -/
theorem tiled_image_load_decoded (stbi_load : Option String → Option decoded)
    (img : tiled_image) {path : Option String} {dec : decoded}
    (hdec : stbi_load path = some dec) :
    tiled_image_load stbi_load img path =
      if dec.w % 8 ≠ 0 ∨ dec.h % 8 ≠ 0 then
        (-1, { img with w_px := dec.w, h_px := dec.h, data := none },
          [event.bad_image_size dec.w dec.h])
      else
        (0, { w_px := dec.w, h_px := dec.h, w_tiles := dec.w / 8, h_tiles := dec.h / 8,
              num_tiles := dec.w / 8 * (dec.h / 8), data := some dec.pixels }, []) := by
  unfold tiled_image_load
  simp only [hdec, TILE_WIDTH_PX, TILE_HEIGHT_PX, tmod_eight_ne_zero_iff, tiled_image_free]
  by_cases h : dec.w % 8 ≠ 0 ∨ dec.h % 8 ≠ 0
  · simp only [h, if_true]
  · simp only [h, if_false]
    have hw : dec.w % 8 = 0 := by omega
    have hh : dec.h % 8 = 0 := by omega
    rw [tdiv_eight_eq _ hw, tdiv_eight_eq _ hh]

/-- `tiled_image_load` returns 0 and prints nothing, or returns -1 and prints one line that is
not a call. -/
theorem tiled_image_load_cases (stbi_load : Option String → Option decoded) (img : tiled_image)
    (path : Option String) :
    (∃ img1, tiled_image_load stbi_load img path = (0, img1, [])) ∨
      (∃ img1, tiled_image_load stbi_load img path = (-1, img1, [event.load_failed path])) ∨
      ∃ img1 a b, tiled_image_load stbi_load img path = (-1, img1, [event.bad_image_size a b]) := by
  cases h : stbi_load path with
  | none => right; left; exact ⟨_, by unfold tiled_image_load; rw [h]⟩
  | some dec =>
    rw [tiled_image_load_decoded stbi_load img h]
    by_cases hb : dec.w % 8 ≠ 0 ∨ dec.h % 8 ≠ 0
    · right; right; exact ⟨_, _, _, if_pos hb⟩
    · left; exact ⟨_, if_neg hb⟩

/-- A run of `main` in which an image load fails does not reach `tilemap_generate`, and ends
with status -1. -/
theorem main_body_load_error (w : world) (opts : options)
    (h : (tiled_image_load w.stbi_load zero_image
            opts.tileset_path).1 ≠ 0 ∨
         (tiled_image_load w.stbi_load zero_image
            opts.image_path).1 ≠ 0) :
    event.call fn_name.tilemap_generate ∉ (main_body w opts).out ∧
      (main_body w opts).status = some (-1) ∧ (main_body w opts).fs = w.fs := by
  unfold main_body
  rcases tiled_image_load_cases w.stbi_load zero_image
      opts.tileset_path with ⟨t, ht⟩ | ⟨t, ht⟩ | ⟨t, a, b, ht⟩
  · rw [ht] at h
    simp only [ht]
    by_cases hmany : t.num_tiles > MAX_TILESET_SIZE
    · simp [hmany, main_exit]
    · rcases tiled_image_load_cases w.stbi_load zero_image
          opts.image_path with ⟨m, hm⟩ | ⟨m, hm⟩ | ⟨m, a, b, hm⟩
      · rw [hm] at h
        simp at h
      · simp [hm, hmany, main_exit]
      · simp [hm, hmany, main_exit]
  · simp [ht, main_exit]
  · simp [ht, main_exit]

/-- A run of `main` whose tileset loads and has at most 256 tiles prints that the tileset was
loaded and goes on to load the map image. -/
theorem main_body_tileset_accepted (w : world) (opts : options) {t : tiled_image}
    (ht : tiled_image_load w.stbi_load zero_image
      opts.tileset_path = (0, t, []))
    (hsize : ¬ t.num_tiles > MAX_TILESET_SIZE) :
    (main_body w opts).out.take 4 =
      [event.call fn_name.options_parse, event.call fn_name.tiled_image_load,
        event.tileset_loaded t.w_px t.h_px t.w_tiles t.h_tiles,
        event.call fn_name.tiled_image_load] := by
  unfold main_body
  simp only [ht, hsize]
  rcases tiled_image_load_cases w.stbi_load zero_image
      opts.image_path with ⟨m, hm⟩ | ⟨m, hm⟩ | ⟨m, a, b, hm⟩
  · simp only [hm]
    simp only [ne_eq, not_true_eq_false, if_false, List.append_nil, List.cons_append,
      List.nil_append]
    split
    · simp
    · split
      · simp [main_exit]
      · split
        · simp
        · split
          · simp
          · split <;> simp [main_exit]
  · simp [hm, main_exit]
  · simp [hm, main_exit]

/-- A run of `main` whose tileset loads and has more than 256 tiles ends there. -/
theorem main_body_tileset_rejected (w : world) (opts : options) {t : tiled_image}
    (ht : tiled_image_load w.stbi_load zero_image
      opts.tileset_path = (0, t, []))
    (hsize : t.num_tiles > MAX_TILESET_SIZE) :
    (main_body w opts).out =
        [event.call fn_name.options_parse, event.call fn_name.tiled_image_load,
          event.too_many_tiles t.num_tiles, event.call fn_name.tiled_image_free,
          event.call fn_name.tiled_image_free, event.call fn_name.tilemap_free] ∧
      (main_body w opts).status = some (-1) ∧ (main_body w opts).fs = w.fs := by
  unfold main_body
  simp [ht, hsize, main_exit]

/-! ## Two runs on the same images -/

theorem tilemap_set_tile_agree {m1 m2 : tilemap}
    (hlen : m1.data.map List.length = m2.data.map List.length) (i : Int) (v : Nat) :
    (tilemap_set_tile m1 i v = none ∧ tilemap_set_tile m2 i v = none) ∨
      ∃ r1 r2, tilemap_set_tile m1 i v = some r1 ∧ tilemap_set_tile m2 i v = some r2 ∧
        r1.data.map List.length = r2.data.map List.length := by
  cases h1 : m1.data with
  | none =>
    cases h2 : m2.data with
    | none => left; simp [tilemap_set_tile, h1, h2]
    | some d2 => simp [h1, h2] at hlen
  | some d1 =>
    cases h2 : m2.data with
    | none => simp [h1, h2] at hlen
    | some d2 =>
      have hl : d1.length = d2.length := by simpa [h1, h2] using hlen
      by_cases hb : 0 ≤ i ∧ i.toNat < d1.length
      · right
        have hb2 : 0 ≤ i ∧ i.toNat < d2.length := by rw [← hl]; exact hb
        exact ⟨{ m1 with data := some (d1.set i.toNat v) },
          { m2 with data := some (d2.set i.toNat v) },
          by simp [tilemap_set_tile, h1, hb], by simp [tilemap_set_tile, h2, hb2], by simp [hl]⟩
      · left
        have hb2 : ¬ (0 ≤ i ∧ i.toNat < d2.length) := by rw [← hl]; exact hb
        exact ⟨by simp only [tilemap_set_tile, h1, hb, if_false],
          by simp only [tilemap_set_tile, h2, hb2, if_false]⟩

/-- Whether the inner loop returns, and the value of `match` it returns, do not depend on the
contents of the tilemap buffer. -/
theorem tilemap_generate_scan_agree (image : tiled_image) (i : Int) (tileset : tiled_image) :
    ∀ (left : Nat) (j matched : Int) (m1 m2 : tilemap),
      m1.data.map List.length = m2.data.map List.length →
      (tilemap_generate_scan image i tileset left j matched m1 = none ∧
          tilemap_generate_scan image i tileset left j matched m2 = none) ∨
        ∃ r1 r2, tilemap_generate_scan image i tileset left j matched m1 = some r1 ∧
          tilemap_generate_scan image i tileset left j matched m2 = some r2 ∧ r1.1 = r2.1 ∧
          r1.2.data.map List.length = r2.2.data.map List.length := by
  intro left
  induction left with
  | zero =>
    intro j matched m1 m2 hlen
    right
    exact ⟨(matched, m1), (matched, m2), rfl, rfl, rfl, hlen⟩
  | succ n ih =>
    intro j matched m1 m2 hlen
    simp only [tilemap_generate_scan]
    cases hv : is_tile_equal image i tileset j with
    | none => left; exact ⟨rfl, rfl⟩
    | some v =>
      by_cases hne : v ≠ 0
      · simp only [if_pos hne]
        rcases tilemap_set_tile_agree hlen i (uint8_of_int j) with ⟨h1, h2⟩ | ⟨r1, r2, h1, h2, hl⟩
        · left; simp only [h1, h2, and_self]
        · right; exact ⟨(v, r1), (v, r2), by simp only [h1], by simp only [h2], rfl, hl⟩
      · simp only [if_neg hne]
        exact ih (j + 1) v m1 m2 hlen

/-- Whether `tilemap_generate` returns does not depend on the contents of the tilemap buffer. -/
theorem tilemap_generate_tiles_agree (image tileset : tiled_image) :
    ∀ (left : Nat) (i : Int) (m1 m2 : tilemap),
      m1.data.map List.length = m2.data.map List.length →
      (tilemap_generate_tiles image tileset left i m1 = none ∧
          tilemap_generate_tiles image tileset left i m2 = none) ∨
        ∃ g1 g2, tilemap_generate_tiles image tileset left i m1 = some g1 ∧
          tilemap_generate_tiles image tileset left i m2 = some g2 := by
  intro left
  induction left with
  | zero => intro i m1 m2 _; right; exact ⟨_, _, rfl, rfl⟩
  | succ n ih =>
    intro i m1 m2 hlen
    simp only [tilemap_generate_tiles]
    rcases tilemap_generate_scan_agree image i tileset (tileset.num_tiles - 0).toNat 0 1 m1 m2 hlen
      with ⟨h1, h2⟩ | ⟨⟨v1, r1⟩, ⟨v2, r2⟩, h1, h2, hv, hl⟩
    · left
      simp only [h1, h2, and_self]
    · simp only at hv hl
      subst hv
      simp only [h1, h2]
      by_cases hm : v1 = 0
      · right; simp only [if_pos hm]; exact ⟨_, _, rfl, rfl⟩
      · simp only [if_neg hm]
        exact ih (i + 1) r1 r2 hl

theorem tilemap_new_data (junk : Nat → Nat) {n : Int} (h0 : -2 ^ 31 ≤ n) (h1 : n < 2 ^ 31) :
    (tilemap_new junk n).data.map List.length = if 0 ≤ n then some n.toNat else none := by
  unfold tilemap_new malloc size_t_of_int
  by_cases hn : 0 ≤ n
  · have e : (n % 2 ^ 64).toNat = n.toNat := by omega
    have hlt : n.toNat < 2 ^ 63 := by omega
    simp only [e, hlt, hn, if_true, Option.map_some', List.length_map, List.length_range]
  · have hge : ¬ (n % 2 ^ 64).toNat < 2 ^ 63 := by omega
    simp only [hge, hn, if_false, Option.map_none']

/-- Determinism on a tileset that has a tile: two runs of `tilemap_generate` on the same map
image and tileset, started on two fresh tilemap buffers with any contents, both return or both
do not; when they return, the returned value and the lines printed are the same, and after a
success the two tilemaps are the same. -/
theorem tilemap_generate_deterministic (junk1 junk2 : Nat → Nat) (image tileset : tiled_image)
    (hpos : 0 < tileset.num_tiles) (h0 : -2 ^ 31 ≤ image.num_tiles)
    (h1 : image.num_tiles < 2 ^ 31) :
    (tilemap_generate (tilemap_new junk1 image.num_tiles) image tileset = none ∧
        tilemap_generate (tilemap_new junk2 image.num_tiles) image tileset = none) ∨
      ∃ g1 g2, tilemap_generate (tilemap_new junk1 image.num_tiles) image tileset = some g1 ∧
        tilemap_generate (tilemap_new junk2 image.num_tiles) image tileset = some g2 ∧
        g1.retval = g2.retval ∧ g1.out = g2.out ∧ (g1.retval = 0 → g1.map = g2.map) := by
  have hlen : (tilemap_new junk1 image.num_tiles).data.map List.length =
      (tilemap_new junk2 image.num_tiles).data.map List.length := by
    rw [tilemap_new_data junk1 h0 h1, tilemap_new_data junk2 h0 h1]
  rcases tilemap_generate_tiles_agree image tileset (image.num_tiles - 0).toNat 0 _ _ hlen with
    hnone | ⟨g1, g2, hg1, hg2⟩
  · left; exact hnone
  · right
    refine ⟨g1, g2, hg1, hg2, ?_⟩
    obtain ⟨⟨hs1, hl1, _⟩, _⟩ := tilemap_generate_tiles_spec image tileset _ 0 _ g1 (le_refl 0) hg1
    obtain ⟨⟨hs2, hl2, _⟩, _⟩ := tilemap_generate_tiles_spec image tileset _ 0 _ g2 (le_refl 0) hg2
    rcases tilemap_generate_spec hg1 with ⟨a0, aout, aall⟩ | ⟨i, hi0, hi1, a1, aout, _, ano, abefore⟩
    · rcases tilemap_generate_spec hg2 with ⟨b0, bout, ball⟩ |
        ⟨k, hk0, hk1, b1, bout, _, bno, bbefore⟩
      · refine ⟨by rw [a0, b0], by rw [aout, bout], ?_⟩
        intro _
        have hsize : g1.map.size = g2.map.size := by rw [hs1, hs2]; rfl
        have hdata : g1.map.data = g2.map.data := by
          rw [tilemap_new_data junk1 h0 h1] at hl1
          rw [tilemap_new_data junk2 h0 h1] at hl2
          by_cases hn : 0 ≤ image.num_tiles
          · simp only [hn, if_true] at hl1 hl2
            cases hd1 : g1.map.data with
            | none => simp [hd1] at hl1
            | some d1 =>
              cases hd2 : g2.map.data with
              | none => simp [hd2] at hl2
              | some d2 =>
                have e1 : d1.length = image.num_tiles.toNat := by simpa [hd1] using hl1
                have e2 : d2.length = image.num_tiles.toNat := by simpa [hd2] using hl2
                congr 1
                apply List.ext_getElem?
                intro p
                by_cases hp : p < image.num_tiles.toNat
                · rcases aall p (by omega) (by omega) with hz | ⟨ja, hja, hba⟩
                  · omega
                  · rcases ball p (by omega) (by omega) with hz | ⟨jb, hjb, hbb⟩
                    · omega
                    · have hj := first_match_unique hja hjb
                      subst hj
                      rw [hd1] at hba
                      rw [hd2] at hbb
                      simp only [byte_at, Int.toNat_ofNat, Int.ofNat_zero_le, if_true,
                        Nat.cast_nonneg] at hba hbb
                      rw [hba, hbb]
                · rw [List.getElem?_eq_none (by omega), List.getElem?_eq_none (by omega)]
          · simp only [hn, if_false] at hl1 hl2
            cases hd1 : g1.map.data with
            | none =>
              cases hd2 : g2.map.data with
              | none => rfl
              | some d2 => simp [hd2] at hl2
            | some d1 => simp [hd1] at hl1
        cases hm1 : g1.map with
        | mk s1 d1 =>
          cases hm2 : g2.map with
          | mk s2 d2 =>
            rw [hm1, hm2] at hsize
            rw [hm1, hm2] at hdata
            simp only at hsize hdata
            rw [hsize, hdata]
      · exfalso
        rcases aall k hk0 hk1 with hz | ⟨j, hj, _⟩
        · omega
        · exact first_match_not_no_match hj bno
    · rcases tilemap_generate_spec hg2 with ⟨b0, bout, ball⟩ |
        ⟨k, hk0, hk1, b1, bout, _, bno, bbefore⟩
      · exfalso
        rcases ball i hi0 hi1 with hz | ⟨j, hj, _⟩
        · omega
        · exact first_match_not_no_match hj ano
      · have hik : i = k := by
          rcases lt_trichotomy i k with h | h | h
          · obtain ⟨j, hj, _⟩ := bbefore i hi0 h
            exact absurd ano (fun hno => first_match_not_no_match hj hno)
          · exact h
          · obtain ⟨j, hj, _⟩ := abefore k hk0 h
            exact absurd bno (fun hno => first_match_not_no_match hj hno)
        subst hik
        refine ⟨by rw [a1, b1], by rw [aout, bout], ?_⟩
        intro h
        omega

/-! ## Tile equality as a relation -/

theorem is_tile_equal_refl {A : tiled_image} (hA : well_formed A)
    (hfA : A.w_px * A.h_px * 4 < 2 ^ 31) {a : Int} (ha0 : 0 ≤ a) (ha1 : a < A.num_tiles) :
    is_tile_equal A a A a = some 1 :=
  (is_tile_equal_eq_one_iff hA hA hfA hfA ha0 ha1 ha0 ha1).mpr (fun _ _ _ _ _ _ _ _ _ => rfl)

theorem is_tile_equal_symm {A B : tiled_image} (hA : well_formed A) (hB : well_formed B)
    (hfA : A.w_px * A.h_px * 4 < 2 ^ 31) (hfB : B.w_px * B.h_px * 4 < 2 ^ 31)
    {a b : Int} (ha0 : 0 ≤ a) (ha1 : a < A.num_tiles) (hb0 : 0 ≤ b) (hb1 : b < B.num_tiles) :
    is_tile_equal A a B b = is_tile_equal B b A a := by
  have hAB := is_tile_equal_eq_one_iff hA hB hfA hfB ha0 ha1 hb0 hb1
  have hBA := is_tile_equal_eq_one_iff hB hA hfB hfA hb0 hb1 ha0 ha1
  have h1 : is_tile_equal A a B b = some 1 ↔ is_tile_equal B b A a = some 1 := by
    rw [hAB, hBA]
    constructor
    · intro h x y c hx0 hx1 hy0 hy1 hc0 hc1
      exact (h x y c hx0 hx1 hy0 hy1 hc0 hc1).symm
    · intro h x y c hx0 hx1 hy0 hy1 hc0 hc1
      exact (h x y c hx0 hx1 hy0 hy1 hc0 hc1).symm
  rcases is_tile_equal_defined hA hB hfA hfB ha0 ha1 hb0 hb1 with hab | hab
  · rw [hab, h1.mp hab]
  · rcases is_tile_equal_defined hB hA hfB hfA hb0 hb1 ha0 ha1 with hba | hba
    · rw [h1.mpr hba] at hab
      simp at hab
    · rw [hab, hba]

theorem is_tile_equal_trans {A B C : tiled_image} (hA : well_formed A) (hB : well_formed B)
    (hC : well_formed C) (hfA : A.w_px * A.h_px * 4 < 2 ^ 31)
    (hfC : C.w_px * C.h_px * 4 < 2 ^ 31) {a b c : Int} (ha0 : 0 ≤ a) (ha1 : a < A.num_tiles)
    (hb0 : 0 ≤ b) (hb1 : b < B.num_tiles) (hc0 : 0 ≤ c) (hc1 : c < C.num_tiles)
    (hab : is_tile_equal A a B b = some 1) (hbc : is_tile_equal B b C c = some 1) :
    is_tile_equal A a C c = some 1 := by
  rw [is_tile_equal_eq_one_iff hA hC hfA hfC ha0 ha1 hc0 hc1]
  intro x y k hx0 hx1 hy0 hy1 hk0 hk1
  rw [is_tile_equal_eq_one_imp hA hB ha0 ha1 hb0 hb1 hab x y k hx0 hx1 hy0 hy1 hk0 hk1,
    is_tile_equal_eq_one_imp hB hC hb0 hb1 hc0 hc1 hbc x y k hx0 hx1 hy0 hy1 hk0 hk1]

/-- The buffer of a well-formed image of at most 256 tiles has at most 65536 bytes. -/
theorem small_image_fits {img : tiled_image} (hw : well_formed img)
    (h256 : img.num_tiles ≤ 256) : img.w_px * img.h_px * 4 < 2 ^ 31 := by
  obtain ⟨hwp, hhp, hwm, hhm, hwt, hht, hnt, hd⟩ := hw
  have hwpx : img.w_px = 8 * img.w_tiles := by omega
  have hhpx : img.h_px = 8 * img.h_tiles := by omega
  rw [hnt] at h256
  rw [hwpx, hhpx]
  linarith

theorem tilemap_new_block (junk : Nat → Nat) {n : Int} (h0 : 0 ≤ n) (h1 : n < 2 ^ 31) :
    ∃ d : List Nat, (tilemap_new junk n).data = some d ∧ (d.length : Int) = n := by
  have h := tilemap_new_data junk (n := n) (by omega) h1
  simp only [h0, if_true] at h
  cases hd : (tilemap_new junk n).data with
  | none => simp [hd] at h
  | some d =>
    refine ⟨d, rfl, ?_⟩
    have : d.length = n.toNat := by simpa [hd] using h
    omega

/-! ## Bounds of the address arithmetic -/

theorem tilemap_generate_tiles_empty_tileset (image tileset : tiled_image)
    (h : tileset.num_tiles ≤ 0) :
    ∀ (left : Nat) (i : Int) (map : tilemap),
      tilemap_generate_tiles image tileset left i map =
        some { retval := 0, map := map, out := [] } := by
  have hz : (tileset.num_tiles - 0).toNat = 0 := by omega
  intro left
  induction left with
  | zero => intro i map; rfl
  | succ n ih =>
    intro i map
    simp only [tilemap_generate_tiles, hz, tilemap_generate_scan, one_ne_zero, if_false]
    exact ih (i + 1) map

/-! ## The tile rows cover the buffer -/

theorem euclid_unique (a b a1 b1 c : Int) (hc : 0 < c) (hb0 : 0 ≤ b) (hb1 : b < c)
    (hc0 : 0 ≤ b1) (hc1 : b1 < c) (h : a * c + b = a1 * c + b1) : a = a1 ∧ b = b1 := by
  have ha : (a * c + b) / c = a := by
    rw [add_comm, Int.add_mul_ediv_right _ _ (ne_of_gt hc), Int.ediv_eq_zero_of_lt hb0 hb1,
      zero_add]
  have ha1 : (a1 * c + b1) / c = a1 := by
    rw [add_comm, Int.add_mul_ediv_right _ _ (ne_of_gt hc), Int.ediv_eq_zero_of_lt hc0 hc1,
      zero_add]
  have e : a = a1 := by rw [← ha, ← ha1, h]
  subst e
  exact ⟨rfl, by omega⟩

/-- Every byte of the buffer of a well-formed image lies in the row of some valid tile. -/
theorem row_offset_covers {img : tiled_image} (hw : well_formed img) {k : Int} (hk0 : 0 ≤ k)
    (hk1 : k < img.w_px * img.h_px * 4) :
    ∃ t r : Int, 0 ≤ t ∧ t < img.num_tiles ∧ 0 ≤ r ∧ r < 8 ∧ row_offset img t r ≤ k ∧
      k < row_offset img t r + 32 := by
  obtain ⟨hwp, hhp, hwm, hhm, hwt, hht, hnt, hd⟩ := hw
  have hW : 0 < img.w_tiles := by omega
  have hH : 0 < img.h_tiles := by omega
  have hwpx : img.w_px = 8 * img.w_tiles := by omega
  have hhpx : img.h_px = 8 * img.h_tiles := by omega
  have hc : 0 < 32 * img.w_tiles := by omega
  have hsplit : 32 * img.w_tiles * (k / (32 * img.w_tiles)) + k % (32 * img.w_tiles) = k :=
    Int.ediv_add_emod k (32 * img.w_tiles)
  have hrem0 : 0 ≤ k % (32 * img.w_tiles) := Int.emod_nonneg _ (by omega)
  have hrem1 : k % (32 * img.w_tiles) < 32 * img.w_tiles := Int.emod_lt_of_pos _ hc
  have hy0 : 0 ≤ k / (32 * img.w_tiles) := Int.ediv_nonneg hk0 (by omega)
  have hy1 : k / (32 * img.w_tiles) < 8 * img.h_tiles := by
    apply Int.ediv_lt_of_lt_mul hc
    rw [hwpx, hhpx] at hk1
    linarith
  obtain ⟨y, hy⟩ : ∃ y : Int, y = k / (32 * img.w_tiles) := ⟨_, rfl⟩
  obtain ⟨rem, hrem⟩ : ∃ rem : Int, rem = k % (32 * img.w_tiles) := ⟨_, rfl⟩
  rw [← hy] at hsplit hy0 hy1
  rw [← hrem] at hsplit hrem0 hrem1
  have hq0 : 0 ≤ y / 8 := by omega
  have hq1 : y / 8 < img.h_tiles := by omega
  have hm0 : 0 ≤ rem / 32 := by omega
  have hm1 : rem / 32 < img.w_tiles := by omega
  have hdiv : (y / 8 * img.w_tiles + rem / 32) / img.w_tiles = y / 8 := by
    rw [add_comm, Int.add_mul_ediv_right _ _ (by omega), Int.ediv_eq_zero_of_lt hm0 hm1]
    simp
  have hmod : (y / 8 * img.w_tiles + rem / 32) % img.w_tiles = rem / 32 := by
    rw [add_comm, Int.add_mul_emod_self, Int.emod_eq_of_lt hm0 hm1]
  have hqW0 : 0 ≤ y / 8 * img.w_tiles := mul_nonneg hq0 (by omega)
  have hqW1 : y / 8 * img.w_tiles ≤ (img.h_tiles - 1) * img.w_tiles :=
    mul_le_mul_of_nonneg_right (by omega) (by omega)
  have hy8 : 8 * (y / 8) + y % 8 = y := by omega
  refine ⟨y / 8 * img.w_tiles + rem / 32, y % 8, by omega, ?_, by omega, by omega, ?_, ?_⟩
  · rw [hnt]; linarith
  · unfold row_offset
    rw [hdiv, hmod, hy8, hwpx]
    have : 32 * (rem / 32) ≤ rem := by omega
    linarith
  · unfold row_offset
    rw [hdiv, hmod, hy8, hwpx]
    have : rem < 32 * (rem / 32) + 32 := by omega
    linarith

/-- A byte of the buffer of a well-formed image lies in the row of one valid tile only. -/
theorem row_offset_disjoint {img : tiled_image} (hw : well_formed img) {t r t1 r1 k : Int}
    (ht0 : 0 ≤ t) (hr0 : 0 ≤ r) (hr1 : r < 8) (hu0 : 0 ≤ t1) (hs0 : 0 ≤ r1) (hs1 : r1 < 8)
    (h1 : row_offset img t r ≤ k)
    (h2 : k < row_offset img t r + 32) (h3 : row_offset img t1 r1 ≤ k)
    (h4 : k < row_offset img t1 r1 + 32) : t = t1 ∧ r = r1 := by
  obtain ⟨hwp, hhp, hwm, hhm, hwt, hht, hnt, hd⟩ := hw
  have hW : 0 < img.w_tiles := by omega
  have hwpx : img.w_px = 8 * img.w_tiles := by omega
  have hm0 : 0 ≤ t % img.w_tiles := Int.emod_nonneg _ (by omega)
  have hm1 : t % img.w_tiles < img.w_tiles := Int.emod_lt_of_pos _ hW
  have hn0 : 0 ≤ t1 % img.w_tiles := Int.emod_nonneg _ (by omega)
  have hn1 : t1 % img.w_tiles < img.w_tiles := Int.emod_lt_of_pos _ hW
  have hq0 : 0 ≤ t / img.w_tiles := Int.ediv_nonneg ht0 (by omega)
  have hp0 : 0 ≤ t1 / img.w_tiles := Int.ediv_nonneg hu0 (by omega)
  have e1 : row_offset img t r =
      (8 * (t / img.w_tiles) + r) * (32 * img.w_tiles) + 32 * (t % img.w_tiles) := by
    unfold row_offset; rw [hwpx]; ring
  have e2 : row_offset img t1 r1 =
      (8 * (t1 / img.w_tiles) + r1) * (32 * img.w_tiles) + 32 * (t1 % img.w_tiles) := by
    unfold row_offset; rw [hwpx]; ring
  rw [e1] at h1 h2
  rw [e2] at h3 h4
  have huniq := euclid_unique (8 * (t / img.w_tiles) + r)
    (k - (8 * (t / img.w_tiles) + r) * (32 * img.w_tiles))
    (8 * (t1 / img.w_tiles) + r1)
    (k - (8 * (t1 / img.w_tiles) + r1) * (32 * img.w_tiles)) (32 * img.w_tiles)
    (by omega) (by linarith) (by linarith) (by linarith) (by linarith) (by ring)
  obtain ⟨ha, hb⟩ := huniq
  have hq : t / img.w_tiles = t1 / img.w_tiles := by omega
  have hr : r = r1 := by omega
  have hm : t % img.w_tiles = t1 % img.w_tiles := by
    rw [ha] at h1 h2
    omega
  refine ⟨?_, hr⟩
  rw [← Int.ediv_add_emod t img.w_tiles, ← Int.ediv_add_emod t1 img.w_tiles, hq, hm]

/-! ## The command line -/

theorem getD_eq_iff (l : List String) (i : Nat) {s : String} (hs : s ≠ "") :
    l.getD i "" = s ↔ l[i]? = some s := by
  rw [List.getD_eq_getElem?_getD]
  cases h : l[i]? with
  | none => simp; exact fun e => hs e.symm
  | some x => simp

/-- The flag loop leaves `image_path` at `NULL` when none of the positions it visits holds
`--image` or `-i`. -/
theorem options_parse_flags_image_none (argv : List String) :
    ∀ (left i : Nat) (opts : options), opts.image_path = none →
      (∀ k : Nat, k < left →
        argv[i + 2 * k]? ≠ some "--image" ∧ argv[i + 2 * k]? ≠ some "-i") →
      (options_parse_flags argv left i opts).image_path = none := by
  intro left
  induction left with
  | zero => intro i opts h _; exact h
  | succ n ih =>
    intro i opts h hall
    simp only [options_parse_flags]
    apply ih
    · have h0 := hall 0 (by omega)
      simp only [Nat.mul_zero, Nat.add_zero] at h0
      have h1 : ¬ (argv.getD i "" = "--image" ∨ argv.getD i "" = "-i") := by
        rw [getD_eq_iff argv i (by decide), getD_eq_iff argv i (by decide)]
        exact fun hc => hc.elim h0.1 h0.2
      split_ifs <;> exact h
    · intro k hk
      have := hall (k + 1) (by omega)
      have e : i + 2 * (k + 1) = i + 2 + 2 * k := by omega
      rw [e] at this
      exact this

/-- The flag loop leaves `tilemap_path` at `NULL` when none of the positions it visits holds
`--tilemap` or `-m`. -/
theorem options_parse_flags_tilemap_none (argv : List String) :
    ∀ (left i : Nat) (opts : options), opts.tilemap_path = none →
      (∀ k : Nat, k < left →
        argv[i + 2 * k]? ≠ some "--tilemap" ∧ argv[i + 2 * k]? ≠ some "-m") →
      (options_parse_flags argv left i opts).tilemap_path = none := by
  intro left
  induction left with
  | zero => intro i opts h _; exact h
  | succ n ih =>
    intro i opts h hall
    simp only [options_parse_flags]
    apply ih
    · have h0 := hall 0 (by omega)
      simp only [Nat.mul_zero, Nat.add_zero] at h0
      have h1 : ¬ (argv.getD i "" = "--tilemap" ∨ argv.getD i "" = "-m") := by
        rw [getD_eq_iff argv i (by decide), getD_eq_iff argv i (by decide)]
        exact fun hc => hc.elim h0.1 h0.2
      split_ifs <;> exact h
    · intro k hk
      have := hall (k + 1) (by omega)
      have e : i + 2 * (k + 1) = i + 2 + 2 * k := by omega
      rw [e] at this
      exact this

/-- When `options_parse` returns, the argument vector has seven elements and `image_path` and
`tilemap_path` are set. -/
theorem options_parse_returned {argv : List String} {opts : options}
    (h : options_parse argv zero_options = parsed.returned opts) :
    argv.length = 7 ∧ opts.image_path ≠ none ∧ opts.tilemap_path ≠ none := by
  unfold options_parse at h
  simp only at h
  split at h
  · cases h
  · split at h
    · cases h
    · rename_i h7
      split at h
      · cases h
      · rename_i hset
        simp only [parsed.returned.injEq] at h
        subst h
        simp only [not_or] at hset
        exact ⟨by simpa using h7, hset.2.1, hset.1⟩

/-! ## Runs that reach `tilemap_generate` -/

/-- A run of `main` in which both images load, the tileset has at most 256 tiles and
`tilemap_generate` returns an error: the run ends through `exit:` with that error as status,
and the file system is the one it started with. -/
theorem main_body_generate_error (w : world) (opts : options) {t m : tiled_image}
    {g : generated}
    (ht : tiled_image_load w.stbi_load zero_image opts.tileset_path = (0, t, []))
    (hsize : t.num_tiles ≤ 256)
    (hm : tiled_image_load w.stbi_load zero_image opts.image_path = (0, m, []))
    (hgen : tilemap_generate (tilemap_new w.junk m.num_tiles) m t = some g)
    (herr : g.retval ≠ 0) :
    main_body w opts =
      main_exit (some g.retval)
        ([event.call fn_name.options_parse, event.call fn_name.tiled_image_load,
          event.tileset_loaded t.w_px t.h_px t.w_tiles t.h_tiles,
          event.call fn_name.tiled_image_load,
          event.image_loaded m.w_px m.h_px m.w_tiles m.h_tiles,
          event.call fn_name.tilemap_new, event.call fn_name.tilemap_generate] ++ g.out)
        w.fs := by
  have hs : ¬ t.num_tiles > MAX_TILESET_SIZE := by unfold MAX_TILESET_SIZE; omega
  unfold main_body
  simp only [ht, hm, hgen, hs, herr, ne_eq, not_true_eq_false, not_false_eq_true, if_true,
    if_false, List.append_nil, List.cons_append, List.nil_append, List.append_assoc]

/-- What `tilemap_save` returns: -1 when the file cannot be opened for exclusive creation or
fewer than `size` bytes are written, and no value at all when all bytes are written. -/
theorem tilemap_save_retval {fs : file_system} {map : tilemap} {filename : Option String}
    {s : saved} (h : tilemap_save fs map filename = some s) :
    (s.retval = some (-1) ∧
        (fopen_wx fs filename = none ∨
          ∃ p fs1 c fs2, fopen_wx fs filename = some (p, fs1) ∧
            fwrite fs1 p map.data map.size = some (c, fs2) ∧ c ≠ map.size)) ∨
      (s.retval = none ∧
        ∃ p fs1 fs2, fopen_wx fs filename = some (p, fs1) ∧
          fwrite fs1 p map.data map.size = some (map.size, fs2)) := by
  unfold tilemap_save at h
  split at h
  · rename_i hopen
    simp only [Option.some.injEq] at h
    subst h
    exact Or.inl ⟨rfl, Or.inl hopen⟩
  · rename_i p fs1 hopen
    split at h
    · cases h
    · rename_i c fs2 hwrite
      split at h
      · rename_i hc
        simp only [Option.some.injEq] at h
        subst h
        exact Or.inl ⟨rfl, Or.inr ⟨p, fs1, c, fs2, hopen, hwrite, hc⟩⟩
      · rename_i hc
        simp only [Option.some.injEq] at h
        subst h
        have hc1 : c = map.size := by simpa using hc
        subst hc1
        exact Or.inr ⟨rfl, p, fs1, fs2, hopen, hwrite⟩

/-! # The claims -/

set_option maxRecDepth 100000

/-- C1. First-match policy: after a successful `tilemap_generate` on a tileset of 1 to 256
tiles, the entry of every map tile `i` is the least tileset index `j` for which
`is_tile_equal` returns 1: tile `j` equals map tile `i`, every tile below `j` is reported
different, and so every other matching index `j2` is at least `j`. -/
theorem C1_first_match (map : tilemap) (image tileset : tiled_image) (g : generated) (i : Int)
    (hpos : 0 < tileset.num_tiles) (h256 : tileset.num_tiles ≤ 256)
    (hgen : tilemap_generate map image tileset = some g) (hok : g.retval = 0) (hi0 : 0 ≤ i)
    (hi1 : i < image.num_tiles) :
    ∃ j : Int, 0 ≤ j ∧ j < tileset.num_tiles ∧ byte_at g.map.data i = some j.toNat ∧
      is_tile_equal image i tileset j = some 1 ∧
      (∀ j1 : Int, 0 ≤ j1 → j1 < j → is_tile_equal image i tileset j1 = some 0) ∧
      ∀ j2 : Int, 0 ≤ j2 → j2 < tileset.num_tiles →
        is_tile_equal image i tileset j2 = some 1 → j ≤ j2 := by
  obtain ⟨j, hj, hb⟩ := first_match_of_success hpos hgen hok hi0 hi1
  obtain ⟨hj0, hj1, heq, hmin⟩ := hj
  rw [(uint8_of_int_eq hj0 (by omega)).1] at hb
  refine ⟨j, hj0, hj1, hb, heq, hmin, ?_⟩
  intro j2 h0 _ h2
  by_contra hlt
  have := hmin j2 h0 (by omega)
  rw [h2] at this
  simp at this

/-- C1, witness: the red and blue map image against the red and blue tileset gives the bytes
0 and 1; here the entry of map tile 1. -/
theorem C1_first_match_witness :
    ∃ j : Int, 0 ≤ j ∧ j < red_blue.num_tiles ∧ byte_at (some [0, 1]) 1 = some j.toNat ∧
      is_tile_equal red_blue 1 red_blue j = some 1 ∧
      (∀ j1 : Int, 0 ≤ j1 → j1 < j → is_tile_equal red_blue 1 red_blue j1 = some 0) ∧
      ∀ j2 : Int, 0 ≤ j2 → j2 < red_blue.num_tiles →
        is_tile_equal red_blue 1 red_blue j2 = some 1 → j ≤ j2 :=
  C1_first_match (tilemap_new (fun _ => 7) 2) red_blue red_blue
    { retval := 0, map := { size := 2, data := some [0, 1] }, out := [] } 1
    (by decide) (by decide) (by decide) (by decide) (by decide) (by decide)

/-- C2. Round trip: after a successful `tilemap_generate` on a well-formed map image and a
well-formed tileset of at most 256 tiles, every channel `c` of every pixel `(x, y)` of the map
image holds the byte that the tileset holds at place `(x % 8, y % 8)`, channel `c`, of the tile
whose number is the tilemap entry of map tile `(y / 8) * w_tiles + x / 8`. -/
theorem C2_round_trip (map : tilemap) (image tileset : tiled_image) (g : generated)
    (x y c : Int) (hI : well_formed image) (hT : well_formed tileset)
    (h256 : tileset.num_tiles ≤ 256) (hgen : tilemap_generate map image tileset = some g)
    (hok : g.retval = 0) (hx0 : 0 ≤ x) (hx1 : x < image.w_px) (hy0 : 0 ≤ y)
    (hy1 : y < image.h_px) (hc0 : 0 ≤ c) (hc1 : c < 4) :
    ∃ k v : Nat, byte_at g.map.data (y / 8 * image.w_tiles + x / 8) = some k ∧
      (k : Int) < tileset.num_tiles ∧
      byte_at image.data ((y * image.w_px + x) * 4 + c) = some v ∧
      tile_byte tileset k (x % 8) (y % 8) c = some v := by
  obtain ⟨ht0, ht1, hpix⟩ := tile_of_pixel hI hx0 hx1 hy0 hy1 c
  have hTpos : 0 < tileset.num_tiles := by
    obtain ⟨hwp, hhp, hwm, hhm, hwt, hht, hnt, hd⟩ := hT
    rw [hnt]
    exact mul_pos (by omega) (by omega)
  obtain ⟨j, ⟨hj0, hj1, hjeq, _⟩, hentry⟩ := first_match_of_success hTpos hgen hok ht0 ht1
  obtain ⟨hu, hu1⟩ := uint8_of_int_eq hj0 (by omega)
  have hbytes := is_tile_equal_eq_one_imp hI hT ht0 ht1 hj0 hj1 hjeq (x % 8) (y % 8) c
    (by omega) (by omega) (by omega) (by omega) hc0 hc1
  obtain ⟨v, hv⟩ := tile_byte_defined hT hj0 hj1 (x := x % 8) (y := y % 8) (c := c)
    (by omega) (by omega) (by omega) (by omega) hc0 hc1
  refine ⟨uint8_of_int j, v, hentry, by omega, ?_, by rw [hu1]; exact hv⟩
  have : pixel_byte image x y c = some v := by rw [← hpix, hbytes, hv]
  exact this

/-- C2, witness: the red and blue image mapped onto itself as tileset; the alpha channel of
pixel `(9, 2)` lies in map tile 1, whose entry is 1. -/
theorem C2_round_trip_witness :
    ∃ k v : Nat, byte_at (some [0, 1]) (2 / 8 * red_blue.w_tiles + 9 / 8) = some k ∧
      (k : Int) < red_blue.num_tiles ∧
      byte_at red_blue.data ((2 * red_blue.w_px + 9) * 4 + 3) = some v ∧
      tile_byte red_blue k (9 % 8) (2 % 8) 3 = some v :=
  C2_round_trip (tilemap_new (fun _ => 7) 2) red_blue red_blue
    { retval := 0, map := { size := 2, data := some [0, 1] }, out := [] } 9 2 3
    (by decide) (by decide) (by decide) (by decide) (by decide) (by decide) (by decide)
    (by decide) (by decide) (by decide) (by decide)

/-- C4. Fail-fast reporting order: whenever `tilemap_generate` fails on a tileset of at most
256 tiles, it reports one tile index `i`; map tile `i` equals no tileset tile, every map tile
below `i` has a first match (so `i` is the lowest index of an unmatched map tile), and the
entries of the map tiles below `i` hold their first-match indices. -/
theorem C4_fail_fast_order (map : tilemap) (image tileset : tiled_image) (g : generated)
    (h256 : tileset.num_tiles ≤ 256) (hgen : tilemap_generate map image tileset = some g)
    (hfail : g.retval ≠ 0) :
    ∃ i : Int, g.out = [event.unmatched_tile i] ∧ 0 ≤ i ∧ i < image.num_tiles ∧
      no_match image i tileset ∧
      ∀ i1 : Int, 0 ≤ i1 → i1 < i → ∃ j : Int, first_match image i1 tileset j ∧
        byte_at g.map.data i1 = some j.toNat := by
  rcases tilemap_generate_spec hgen with ⟨g0, _, _⟩ | ⟨i, hi0, hi1, _, gout, _, hno, hbefore⟩
  · exact absurd g0 hfail
  · refine ⟨i, gout, hi0, hi1, hno, ?_⟩
    intro i1 h0 h1
    obtain ⟨j, hj, hb⟩ := hbefore i1 h0 h1
    rw [(uint8_of_int_eq hj.1 (by have := hj.2.1; omega)).1] at hb
    exact ⟨j, hj, hb⟩

/-- C4, witness: the red and green map image against the red and blue tileset fails at map
tile 1, after map tile 0 was resolved. -/
theorem C4_fail_fast_order_witness :
    ∃ i : Int, [event.unmatched_tile 1] = [event.unmatched_tile i] ∧ 0 ≤ i ∧
      i < red_green.num_tiles ∧ no_match red_green i red_blue ∧
      ∀ i1 : Int, 0 ≤ i1 → i1 < i → ∃ j : Int, first_match red_green i1 red_blue j ∧
        byte_at (some [0, 7]) i1 = some j.toNat :=
  C4_fail_fast_order (tilemap_new (fun _ => 7) 2) red_green red_blue
    { retval := -1, map := { size := 2, data := some [0, 7] }, out := [event.unmatched_tile 1] }
    (by decide) (by decide) (by decide)

/-- C5. Exactness of the tile comparison: on valid tiles of well-formed images whose buffer
lengths fit an `int` (below 2^31 bytes), `is_tile_equal` returns 1 or 0, it returns 1 exactly
when every channel of every pixel of the two tiles holds the same byte, and it returns 0 as
soon as one channel of one pixel differs. -/
theorem C5_is_tile_equal_exact (A B : tiled_image) (a b : Int) (hA : well_formed A)
    (hB : well_formed B) (hfA : A.w_px * A.h_px * 4 < 2 ^ 31)
    (hfB : B.w_px * B.h_px * 4 < 2 ^ 31) (ha0 : 0 ≤ a) (ha1 : a < A.num_tiles) (hb0 : 0 ≤ b)
    (hb1 : b < B.num_tiles) :
    (is_tile_equal A a B b = some 1 ∨ is_tile_equal A a B b = some 0) ∧
      (is_tile_equal A a B b = some 1 ↔
        ∀ x y c : Int, 0 ≤ x → x < 8 → 0 ≤ y → y < 8 → 0 ≤ c → c < 4 →
          pixel_byte A (8 * (a % A.w_tiles) + x) (8 * (a / A.w_tiles) + y) c =
            pixel_byte B (8 * (b % B.w_tiles) + x) (8 * (b / B.w_tiles) + y) c) ∧
      ∀ x y c : Int, 0 ≤ x → x < 8 → 0 ≤ y → y < 8 → 0 ≤ c → c < 4 →
        pixel_byte A (8 * (a % A.w_tiles) + x) (8 * (a / A.w_tiles) + y) c ≠
          pixel_byte B (8 * (b % B.w_tiles) + x) (8 * (b / B.w_tiles) + y) c →
        is_tile_equal A a B b = some 0 := by
  have hdef := is_tile_equal_defined hA hB hfA hfB ha0 ha1 hb0 hb1
  have hiff := is_tile_equal_eq_one_iff hA hB hfA hfB ha0 ha1 hb0 hb1
  refine ⟨hdef, hiff, ?_⟩
  intro x y c hx0 hx1 hy0 hy1 hc0 hc1 hne
  rcases hdef with h1 | h0
  · exact absurd (hiff.mp h1 x y c hx0 hx1 hy0 hy1 hc0 hc1) hne
  · exact h0

/-- C5, witness: the red tile and the blue tile of the red and blue image differ in the red
channel of their first pixel, and are reported as not equal. -/
theorem C5_is_tile_equal_exact_witness : is_tile_equal red_blue 0 red_blue 1 = some 0 :=
  (C5_is_tile_equal_exact red_blue red_blue 0 1 (by decide) (by decide) (by decide) (by decide)
    (by decide) (by decide) (by decide) (by decide)).2.2 0 0 0 (by decide) (by decide) (by decide) (by decide)
    (by decide) (by decide) (by decide)

/-- C6. Pixel-row addressing: for a valid tile `t` and row `r` of a well-formed image whose
buffer length fits an `int` (below 2^31 bytes), `tiled_image_get_pixel_row` returns the offset
`((8 * (t / w_tiles) + r) * w_px + 8 * (t % w_tiles)) * 4`, the 32 bytes from there on lie
inside the buffer, and byte `4 * x + c` of them is channel `c` of pixel `x` of row `r` of the
tile in tile row `t / w_tiles` and tile column `t % w_tiles`. -/
theorem C6_pixel_row_addressing (img : tiled_image) (t r : Int) (hw : well_formed img)
    (hfit : img.w_px * img.h_px * 4 < 2 ^ 31) (ht0 : 0 ≤ t) (ht1 : t < img.num_tiles)
    (hr0 : 0 ≤ r) (hr1 : r < 8) :
    tiled_image_get_pixel_row img t r =
        some (((8 * (t / img.w_tiles) + r) * img.w_px + 8 * (t % img.w_tiles)) * 4) ∧
      ∃ s : List Nat,
        load_bytes img.data (((8 * (t / img.w_tiles) + r) * img.w_px + 8 * (t % img.w_tiles)) * 4)
            32 = some s ∧
          s.length = 32 ∧
          ∀ x c : Int, 0 ≤ x → x < 8 → 0 ≤ c → c < 4 →
            ∃ v : Nat, s[(4 * x + c).toNat]? = some v ∧
              pixel_byte img (8 * (t % img.w_tiles) + x) (8 * (t / img.w_tiles) + r) c = some v := by
  refine ⟨(pixel_row_spec hw hfit ht0 ht1 hr0 hr1).1, ?_⟩
  obtain ⟨s, hs, hl, hk, hv⟩ := row_bytes_spec hw ht0 ht1 hr0 hr1
  refine ⟨s, hs, hl, ?_⟩
  intro x c hx0 hx1 hc0 hc1
  obtain ⟨v, hvk⟩ := hv (4 * x + c).toNat (by omega)
  refine ⟨v, hvk, ?_⟩
  have e := tile_byte_eq img t x r c
  unfold tile_byte at e
  rw [e, ← hvk, hk _ (by omega)]
  congr 2
  omega

/-- C6, witness: row 3 of the blue tile (tile 1) of the red and blue image starts at byte
`(3 * 16 + 8) * 4`. -/
theorem C6_pixel_row_addressing_witness :
    tiled_image_get_pixel_row red_blue 1 3 = some 224 :=
  (C6_pixel_row_addressing red_blue 1 3 (by decide) (by decide) (by decide) (by decide)
    (by decide) (by decide)).1

/-- C7. Output bytes are tileset indices: after a successful `tilemap_generate` on a tileset
of 1 to 256 tiles, the entry of every map tile `i` is a byte below `tileset.num_tiles`, and it
is the index `j` at which the scan stopped (the first match), unchanged by the conversion to
`uint8_t`. -/
theorem C7_bytes_are_indices (map : tilemap) (image tileset : tiled_image) (g : generated)
    (i : Int) (h1 : 1 ≤ tileset.num_tiles) (h256 : tileset.num_tiles ≤ 256)
    (hgen : tilemap_generate map image tileset = some g) (hok : g.retval = 0) (hi0 : 0 ≤ i)
    (hi1 : i < image.num_tiles) :
    ∃ (j : Int) (b : Nat), first_match image i tileset j ∧ byte_at g.map.data i = some b ∧
      b = uint8_of_int j ∧ (b : Int) = j ∧ (b : Int) < tileset.num_tiles := by
  obtain ⟨j, hj, hb⟩ := first_match_of_success (by omega) hgen hok hi0 hi1
  have hu := (uint8_of_int_eq hj.1 (by have := hj.2.1; omega)).2
  exact ⟨j, uint8_of_int j, hj, hb, rfl, hu, by rw [hu]; exact hj.2.1⟩

/-- C7, witness: the red and blue image mapped onto itself, map tile 1. -/
theorem C7_bytes_are_indices_witness :
    ∃ (j : Int) (b : Nat), first_match red_blue 1 red_blue j ∧ byte_at (some [0, 1]) 1 = some b ∧
      b = uint8_of_int j ∧ (b : Int) = j ∧ (b : Int) < red_blue.num_tiles :=
  C7_bytes_are_indices (tilemap_new (fun _ => 7) 2) red_blue red_blue
    { retval := 0, map := { size := 2, data := some [0, 1] }, out := [] } 1
    (by decide) (by decide) (by decide) (by decide) (by decide) (by decide)

/-- C8. Geometry validation in `tiled_image_load`: for an image that the decoder could read,
the load returns -1 with the buffer released exactly when the width or the height is not a
multiple of 8; otherwise it returns 0 with `w_tiles = w_px / 8`, `h_tiles = h_px / 8`,
`num_tiles = w_tiles * h_tiles`, both divisions exact; and a run of `main` in which such an
image (tileset or map image) is rejected never calls `tilemap_generate`, so no tile is compared,
and ends with status -1. -/
theorem C8_geometry_validation (w : world) (argv : List String) (opts : options)
    (img : tiled_image) (path : Option String) (dec : decoded)
    (hdec : w.stbi_load path = some dec) :
    (((tiled_image_load w.stbi_load img path).1 = -1 ∧
        (tiled_image_load w.stbi_load img path).2.1.data = none) ↔
        (dec.w % 8 ≠ 0 ∨ dec.h % 8 ≠ 0)) ∧
      (¬ (dec.w % 8 ≠ 0 ∨ dec.h % 8 ≠ 0) →
        (tiled_image_load w.stbi_load img path).1 = 0 ∧
        (tiled_image_load w.stbi_load img path).2.1 =
          { w_px := dec.w, h_px := dec.h, w_tiles := dec.w / 8, h_tiles := dec.h / 8,
            num_tiles := dec.w / 8 * (dec.h / 8), data := some dec.pixels } ∧
        8 * (dec.w / 8) = dec.w ∧ 8 * (dec.h / 8) = dec.h) ∧
      ((dec.w % 8 ≠ 0 ∨ dec.h % 8 ≠ 0) →
        options_parse argv zero_options = parsed.returned opts →
        (opts.tileset_path = path ∨ opts.image_path = path) →
        event.call fn_name.tilemap_generate ∉ (main w argv).out ∧
          (main w argv).status = some (-1)) := by
  have hload := tiled_image_load_decoded w.stbi_load img hdec
  refine ⟨?_, ?_, ?_⟩
  · rw [hload]
    by_cases hb : dec.w % 8 ≠ 0 ∨ dec.h % 8 ≠ 0
    · simp only [hb, if_true, and_self]
    · simp only [hb, if_false, iff_false, not_and]
      intro h
      exact absurd h (by decide)
  · intro hb
    rw [hload]
    simp only [hb, if_false, true_and]
    omega
  · intro hb hparse hpath
    have hmain : main w argv = main_body w opts := by simp only [main, hparse]
    rw [hmain]
    have hz := tiled_image_load_decoded w.stbi_load zero_image hdec
    simp only [hb, if_true] at hz
    have herr := main_body_load_error w opts (by
      rcases hpath with hp | hp
      · left; rw [hp, hz]; simp
      · right; rw [hp, hz]; simp)
    exact ⟨herr.1, herr.2.1⟩

/-- C8, witness: a map image of 9 by 8 pixels is rejected by the load, and the run does not
reach `tilemap_generate`. -/
theorem C8_geometry_validation_witness :
    ((tiled_image_load (world_of red_blue_decoded narrow_decoded).stbi_load zero_image
          (some "image.png")).1 = -1 ∧
        (tiled_image_load (world_of red_blue_decoded narrow_decoded).stbi_load zero_image
          (some "image.png")).2.1.data = none) ∧
      event.call fn_name.tilemap_generate ∉
          (main (world_of red_blue_decoded narrow_decoded) full_argv).out ∧
      (main (world_of red_blue_decoded narrow_decoded) full_argv).status = some (-1) :=
  ⟨(C8_geometry_validation (world_of red_blue_decoded narrow_decoded) full_argv full_opts
      zero_image (some "image.png") narrow_decoded rfl).1.mpr (Or.inl (by decide)),
    (C8_geometry_validation (world_of red_blue_decoded narrow_decoded) full_argv full_opts
      zero_image (some "image.png") narrow_decoded rfl).2.2 (Or.inl (by decide)) (by decide)
      (Or.inr rfl)⟩

/-- C9. Tileset-size bound in `main`: for a tileset that loads (both dimensions multiples of 8)
the run is the rejection run (the line about too many tiles, then the release of the buffers,
status -1, file system untouched, no load of the map image and no call of `tilemap_generate`)
exactly when the tile count `(w_px / 8) * (h_px / 8)` is 257 or more; with at most 256 tiles the
run prints that the tileset was loaded and goes on to load the map image; and the rejection run
is the same whatever the rest of the surroundings (map image, heap, files) is. -/
theorem C9_tileset_size_bound (w : world) (argv : List String) (opts : options) (dec : decoded)
    (hparse : options_parse argv zero_options = parsed.returned opts)
    (hdec : w.stbi_load opts.tileset_path = some dec) (hw : dec.w % 8 = 0)
    (hh : dec.h % 8 = 0) :
    (((main w argv).out =
          [event.call fn_name.options_parse, event.call fn_name.tiled_image_load,
            event.too_many_tiles (dec.w / 8 * (dec.h / 8)), event.call fn_name.tiled_image_free,
            event.call fn_name.tiled_image_free, event.call fn_name.tilemap_free] ∧
        (main w argv).status = some (-1) ∧ (main w argv).fs = w.fs) ↔
        257 ≤ dec.w / 8 * (dec.h / 8)) ∧
      (dec.w / 8 * (dec.h / 8) ≤ 256 →
        (main w argv).out.take 4 =
          [event.call fn_name.options_parse, event.call fn_name.tiled_image_load,
            event.tileset_loaded dec.w dec.h (dec.w / 8) (dec.h / 8),
            event.call fn_name.tiled_image_load]) ∧
      (257 ≤ dec.w / 8 * (dec.h / 8) → ∀ w2 : world,
        w2.stbi_load opts.tileset_path = some dec →
        (main w2 argv).out = (main w argv).out ∧ (main w2 argv).status = (main w argv).status) := by
  have hmain : ∀ w1 : world, main w1 argv = main_body w1 opts := by
    intro w1; simp only [main, hparse]
  have hload : ∀ w1 : world, w1.stbi_load opts.tileset_path = some dec →
      tiled_image_load w1.stbi_load zero_image
        opts.tileset_path =
      (0, { w_px := dec.w, h_px := dec.h, w_tiles := dec.w / 8, h_tiles := dec.h / 8,
            num_tiles := dec.w / 8 * (dec.h / 8), data := some dec.pixels }, []) := by
    intro w1 h1
    rw [tiled_image_load_decoded w1.stbi_load _ h1]
    have : ¬ (dec.w % 8 ≠ 0 ∨ dec.h % 8 ≠ 0) := by omega
    simp only [this, if_false]
  have hrej : ∀ w1 : world, w1.stbi_load opts.tileset_path = some dec →
      257 ≤ dec.w / 8 * (dec.h / 8) →
      (main w1 argv).out =
          [event.call fn_name.options_parse, event.call fn_name.tiled_image_load,
            event.too_many_tiles (dec.w / 8 * (dec.h / 8)), event.call fn_name.tiled_image_free,
            event.call fn_name.tiled_image_free, event.call fn_name.tilemap_free] ∧
        (main w1 argv).status = some (-1) ∧ (main w1 argv).fs = w1.fs := by
    intro w1 h1 hn
    rw [hmain w1]
    exact main_body_tileset_rejected w1 opts (hload w1 h1) (by
      show dec.w / 8 * (dec.h / 8) > MAX_TILESET_SIZE
      unfold MAX_TILESET_SIZE; omega)
  have hacc : dec.w / 8 * (dec.h / 8) ≤ 256 →
      (main w argv).out.take 4 =
        [event.call fn_name.options_parse, event.call fn_name.tiled_image_load,
          event.tileset_loaded dec.w dec.h (dec.w / 8) (dec.h / 8),
          event.call fn_name.tiled_image_load] := by
    intro hn
    rw [hmain w]
    exact main_body_tileset_accepted w opts (hload w hdec) (by
      show ¬ dec.w / 8 * (dec.h / 8) > MAX_TILESET_SIZE
      unfold MAX_TILESET_SIZE; omega)
  refine ⟨⟨?_, hrej w hdec⟩, hacc, ?_⟩
  · rintro ⟨hout, _, _⟩
    by_contra hn
    have h4 := hacc (by omega)
    rw [hout] at h4
    simp at h4
  · intro hn w2 h2
    rw [(hrej w2 h2 hn).1, (hrej w hdec hn).1, (hrej w2 h2 hn).2.1, (hrej w hdec hn).2.1]
    exact ⟨rfl, rfl⟩

/-- C9, witness: a tileset of 264 by 64 pixels (33 by 8 tiles, 264 in all) is rejected, and a
tileset of 128 by 128 pixels (exactly 256 tiles) is accepted. -/
theorem C9_tileset_size_bound_witness :
    ((main (world_of large_decoded red_blue_decoded) full_argv).out =
          [event.call fn_name.options_parse, event.call fn_name.tiled_image_load,
            event.too_many_tiles 264, event.call fn_name.tiled_image_free,
            event.call fn_name.tiled_image_free, event.call fn_name.tilemap_free] ∧
        (main (world_of large_decoded red_blue_decoded) full_argv).status = some (-1) ∧
        (main (world_of large_decoded red_blue_decoded) full_argv).fs =
          (world_of large_decoded red_blue_decoded).fs) ∧
      (main (world_of square_decoded red_blue_decoded) full_argv).out.take 4 =
        [event.call fn_name.options_parse, event.call fn_name.tiled_image_load,
          event.tileset_loaded 128 128 16 16, event.call fn_name.tiled_image_load] :=
  ⟨(C9_tileset_size_bound (world_of large_decoded red_blue_decoded) full_argv full_opts
      large_decoded (by decide) rfl (by decide) (by decide)).1.mpr (by decide),
    (C9_tileset_size_bound (world_of square_decoded red_blue_decoded) full_argv full_opts
      square_decoded (by decide) rfl (by decide) (by decide)).2.1 (by decide)⟩

/-- C10. Determinism: on a tileset that has a tile, two runs of `tilemap_generate` on the same
map image and tileset, started on two freshly allocated tilemap buffers with any contents,
both return or both do not; when they return, the returned value and the line printed are the
same, and after a success the two tilemaps are the same, byte for byte. -/
theorem C10_deterministic (junk1 junk2 : Nat → Nat) (image tileset : tiled_image)
    (hpos : 0 < tileset.num_tiles) (h0 : -2 ^ 31 ≤ image.num_tiles)
    (h1 : image.num_tiles < 2 ^ 31) :
    (tilemap_generate (tilemap_new junk1 image.num_tiles) image tileset = none ∧
        tilemap_generate (tilemap_new junk2 image.num_tiles) image tileset = none) ∨
      ∃ g1 g2 : generated,
        tilemap_generate (tilemap_new junk1 image.num_tiles) image tileset = some g1 ∧
        tilemap_generate (tilemap_new junk2 image.num_tiles) image tileset = some g2 ∧
        g1.retval = g2.retval ∧ g1.out = g2.out ∧ (g1.retval = 0 → g1.map = g2.map) :=
  tilemap_generate_deterministic junk1 junk2 image tileset hpos h0 h1

/-- C10, witness: the red and blue image mapped onto itself, once with a fresh buffer that holds
the byte 1 everywhere and once with one that holds 2. -/
theorem C10_deterministic_witness :
    (tilemap_generate (tilemap_new (fun _ => 1) red_blue.num_tiles) red_blue red_blue = none ∧
        tilemap_generate (tilemap_new (fun _ => 2) red_blue.num_tiles) red_blue red_blue =
          none) ∨
      ∃ g1 g2 : generated,
        tilemap_generate (tilemap_new (fun _ => 1) red_blue.num_tiles) red_blue red_blue =
          some g1 ∧
        tilemap_generate (tilemap_new (fun _ => 2) red_blue.num_tiles) red_blue red_blue =
          some g2 ∧
        g1.retval = g2.retval ∧ g1.out = g2.out ∧ (g1.retval = 0 → g1.map = g2.map) :=
  C10_deterministic (fun _ => 1) (fun _ => 2) red_blue red_blue (by decide) (by decide)
    (by decide)

/-- C11. No output on an unmatched tile: in a run of `main` that reaches `tilemap_generate`
(the arguments are parsed, both images load, the tileset has at most 256 tiles) and in which
`tilemap_generate` returns an error, `tilemap_save` is not called, the file system is the one
the run started with, and the exit status is not zero. -/
theorem C11_no_output_on_error (w : world) (argv : List String) (opts : options)
    (t m : tiled_image) (g : generated)
    (hparse : options_parse argv zero_options = parsed.returned opts)
    (ht : tiled_image_load w.stbi_load zero_image opts.tileset_path = (0, t, []))
    (hsize : t.num_tiles ≤ 256)
    (hm : tiled_image_load w.stbi_load zero_image opts.image_path = (0, m, []))
    (hgen : tilemap_generate (tilemap_new w.junk m.num_tiles) m t = some g)
    (herr : g.retval ≠ 0) :
    event.call fn_name.tilemap_save ∉ (main w argv).out ∧ (main w argv).fs = w.fs ∧
      ∃ s : Int, (main w argv).status = some s ∧ s ≠ 0 := by
  have hmain : main w argv = main_body w opts := by simp only [main, hparse]
  rw [hmain, main_body_generate_error w opts ht hsize hm hgen herr]
  rcases tilemap_generate_spec hgen with ⟨g0, _, _⟩ | ⟨i, _, _, _, gout, _⟩
  · exact absurd g0 herr
  · refine ⟨?_, rfl, g.retval, rfl, herr⟩
    simp [main_exit, gout]

/-- C11, witness: the red and green map image against the red and blue tileset; map tile 1 has
no match. -/
theorem C11_no_output_on_error_witness :
    event.call fn_name.tilemap_save ∉
        (main (world_of red_blue_decoded red_green_decoded) full_argv).out ∧
      (main (world_of red_blue_decoded red_green_decoded) full_argv).fs =
        (world_of red_blue_decoded red_green_decoded).fs ∧
      ∃ s : Int, (main (world_of red_blue_decoded red_green_decoded) full_argv).status = some s ∧
        s ≠ 0 :=
  C11_no_output_on_error (world_of red_blue_decoded red_green_decoded) full_argv full_opts
    red_blue red_green
    { retval := -1, map := { size := 2, data := some [0, 7] }, out := [event.unmatched_tile 1] }
    (by decide) (by decide) (by decide) (by decide) (by decide) (by decide)

/-- C12, on the code: in the run in which the red and blue tileset and map image load, both
map tiles are matched, and `out.map` is created and holds both bytes, `tilemap_save` reaches
its end without a `return` statement and so returns no value (not 0), and the exit status of
`main`, which is taken from that value, is not defined; the line that the tilemap was written
is not printed. -/
theorem C12_success_has_no_exit_status :
    (tilemap_save (world_of red_blue_decoded red_blue_decoded).fs
        { size := 2, data := some [0, 1] } (some "out.map")).map
        (fun s => (s.retval, s.fs.files "out.map")) = some (none, some [0, 1]) ∧
      event.tiles_mapped 2 ∈ (main (world_of red_blue_decoded red_blue_decoded) full_argv).out ∧
      (main (world_of red_blue_decoded red_blue_decoded) full_argv).fs.files "out.map" =
        some [0, 1] ∧
      (main (world_of red_blue_decoded red_blue_decoded) full_argv).status = none ∧
      event.tilemap_written (some "out.map") ∉
        (main (world_of red_blue_decoded red_blue_decoded) full_argv).out := by
  refine ⟨by decide, by decide, by decide, by decide, by decide⟩

/-- C13, on the code: the argument vector `gbtm -i other.png -i image.png -m out.map` has no
`--tileset` or `-s`, and `options_parse` returns normally with `tileset_path` still `NULL`
(the last test of the function looks at `tilemap_path` twice and never at `tileset_path`). -/
theorem C13_missing_tileset_is_accepted :
    ¬ gives_option no_tileset_argv "--tileset" "-s" ∧
      options_parse no_tileset_argv zero_options =
        parsed.returned
          { tileset_path := none, image_path := some "image.png",
            tilemap_path := some "out.map" } := by
  refine ⟨by decide, by decide⟩

/-- C14, as amended. Arguments that are missing or malformed: with no argument at all
(`argc == 1`) and for a single `--help` or `-h`, `options_parse` prints the usage and exits
with status 0; for every other argument vector whose length is not 7, or that has no
`--image`/`-i` or no `--tilemap`/`-m` at `argv[1]`, `argv[3]` or `argv[5]`, it prints
`Invalid arguments` and the usage and exits with status -1; and it exits with status 0 in the
first two cases only. -/
theorem C14_missing_arguments (argv : List String) :
    (argv.length = 1 → options_parse argv zero_options = parsed.exited 0 [event.usage]) ∧
      (is_help_request argv →
        options_parse argv zero_options = parsed.exited 0 [event.usage]) ∧
      (argv.length ≠ 1 → ¬ is_help_request argv →
        (argv.length ≠ 7 ∨ ¬ gives_option argv "--image" "-i" ∨
          ¬ gives_option argv "--tilemap" "-m") →
        options_parse argv zero_options =
          parsed.exited (-1) [event.invalid_arguments, event.usage]) ∧
      (∀ out : List event, options_parse argv zero_options = parsed.exited 0 out →
        argv.length = 1 ∨ is_help_request argv) := by
  have hhelp : (argv.length = 2 ∧ (argv.getD 1 "" = "--help" ∨ argv.getD 1 "" = "-h")) ↔
      is_help_request argv := by
    unfold is_help_request
    rw [getD_eq_iff argv 1 (by decide), getD_eq_iff argv 1 (by decide)]
  refine ⟨?_, ?_, ?_, ?_⟩
  · intro h1
    have hc : argv.length = 1 ∨
        (argv.length = 2 ∧ (argv.getD 1 "" = "--help" ∨ argv.getD 1 "" = "-h")) := Or.inl h1
    unfold options_parse
    simp only [hc, if_true]
  · intro hreq
    have hc : argv.length = 1 ∨
        (argv.length = 2 ∧ (argv.getD 1 "" = "--help" ∨ argv.getD 1 "" = "-h")) :=
      Or.inr (hhelp.mpr hreq)
    unfold options_parse
    simp only [hc, if_true]
  · intro h1 hreq hbad
    have hnot : ¬ (argv.length = 1 ∨
        (argv.length = 2 ∧ (argv.getD 1 "" = "--help" ∨ argv.getD 1 "" = "-h"))) := by
      rw [hhelp]
      exact fun hc => hc.elim h1 hreq
    unfold options_parse
    simp only [hnot, if_false]
    by_cases h7 : argv.length = 7
    · have hn7 : ¬ argv.length ≠ 7 := fun hc => hc h7
      simp only [hn7, if_false]
      have hset : (options_parse_flags argv ((argv.length - 1 + 1) / 2) 1
            zero_options).tilemap_path = none ∨
          (options_parse_flags argv ((argv.length - 1 + 1) / 2) 1 zero_options).image_path = none ∨
          (options_parse_flags argv ((argv.length - 1 + 1) / 2) 1
            zero_options).tilemap_path = none := by
        have hfuel : (argv.length - 1 + 1) / 2 = 3 := by rw [h7]
        rw [hfuel]
        rcases hbad with hb | hb | hb
        · exact absurd h7 hb
        · right; left
          apply options_parse_flags_image_none argv 3 1 zero_options rfl
          intro k hk
          unfold gives_option at hb
          simp only [not_or] at hb
          have hk3 : k = 0 ∨ k = 1 ∨ k = 2 := by omega
          rcases hk3 with e | e | e <;> subst e
          · exact hb.1
          · exact hb.2.1
          · exact hb.2.2
        · left
          apply options_parse_flags_tilemap_none argv 3 1 zero_options rfl
          intro k hk
          unfold gives_option at hb
          simp only [not_or] at hb
          have hk3 : k = 0 ∨ k = 1 ∨ k = 2 := by omega
          rcases hk3 with e | e | e <;> subst e
          · exact hb.1
          · exact hb.2.1
          · exact hb.2.2
      simp only [hset, if_true]
    · simp only [ne_eq, h7, not_false_eq_true, if_true]
  · intro out hout
    unfold options_parse at hout
    simp only at hout
    split at hout
    · rename_i hc
      rw [hhelp] at hc
      exact hc
    · split at hout
      · simp at hout
      · split at hout
        · simp at hout
        · cases hout

/-- C14, witness: an argument vector of three elements is rejected with status -1. -/
theorem C14_missing_arguments_witness :
    options_parse ["gbtm", "-s", "tileset.png"] zero_options =
      parsed.exited (-1) [event.invalid_arguments, event.usage] :=
  (C14_missing_arguments ["gbtm", "-s", "tileset.png"]).2.2.1 (by decide) (by decide)
    (Or.inl (by decide))

/-- C14, as stated, fails for the argument vector without arguments (`argc == 1`): it is not a
`--help` or `-h` request and gives none of the three options, and `options_parse` prints the
usage and exits with status 0. -/
theorem C14_counterexample :
    ¬ is_help_request ["gbtm"] ∧ ¬ gives_option ["gbtm"] "--tileset" "-s" ∧
      ¬ gives_option ["gbtm"] "--image" "-i" ∧ ¬ gives_option ["gbtm"] "--tilemap" "-m" ∧
      options_parse ["gbtm"] zero_options = parsed.exited 0 [event.usage] := by
  refine ⟨by decide, by decide, by decide, by decide, by decide⟩

/-- C15. Tile equality is an equivalence relation on valid tiles of well-formed images whose
buffer lengths fit an `int` (below 2^31 bytes; the images may differ in width): `is_tile_equal`
is reflexive, gives the same result with the two tiles exchanged, and is transitive. -/
theorem C15_tile_equality_equivalence (A B C : tiled_image) (a b c : Int)
    (hA : well_formed A) (hB : well_formed B) (hC : well_formed C)
    (hfA : A.w_px * A.h_px * 4 < 2 ^ 31) (hfB : B.w_px * B.h_px * 4 < 2 ^ 31)
    (hfC : C.w_px * C.h_px * 4 < 2 ^ 31) (ha0 : 0 ≤ a)
    (ha1 : a < A.num_tiles) (hb0 : 0 ≤ b) (hb1 : b < B.num_tiles) (hc0 : 0 ≤ c)
    (hc1 : c < C.num_tiles) :
    is_tile_equal A a A a = some 1 ∧ is_tile_equal A a B b = is_tile_equal B b A a ∧
      (is_tile_equal A a B b = some 1 → is_tile_equal B b C c = some 1 →
        is_tile_equal A a C c = some 1) :=
  ⟨is_tile_equal_refl hA hfA ha0 ha1, is_tile_equal_symm hA hB hfA hfB ha0 ha1 hb0 hb1,
    is_tile_equal_trans hA hB hC hfA hfC ha0 ha1 hb0 hb1 hc0 hc1⟩

/-- C15, witness: the red tile of the red and blue image (16 pixels wide), the red tile of the
one-tile image (8 pixels wide) and the red tile of the red and green image. -/
theorem C15_tile_equality_equivalence_witness :
    is_tile_equal red_blue 0 red_blue 0 = some 1 ∧
      is_tile_equal red_blue 0 red_tile 0 = is_tile_equal red_tile 0 red_blue 0 ∧
      (is_tile_equal red_blue 0 red_tile 0 = some 1 →
        is_tile_equal red_tile 0 red_green 0 = some 1 →
        is_tile_equal red_blue 0 red_green 0 = some 1) :=
  C15_tile_equality_equivalence red_blue red_tile red_green 0 0 0 (by decide) (by decide)
    (by decide) (by decide) (by decide) (by decide) (by decide) (by decide) (by decide)
    (by decide) (by decide) (by decide)

/-- C16. In-bounds access and no division by zero: for a valid tile `t` and row `r` of a
well-formed image the divisor `w_tiles` is not zero, and every `int` value and pointer offset
that `tiled_image_get_pixel_row` computes on the way lies between 0 and the buffer length
`w_px * h_px * 4`, hence in the range of a 32-bit `int` when the buffer length is; when the
buffer length fits an `int`, the function returns an offset `off` with `0 ≤ off` and
`off + 32 ≤ w_px * h_px * 4`, the 32 bytes there can be read, and `tilemap_generate` makes no
undefined access (it returns) against every well-formed tileset whose buffer length fits an
`int`, with a tilemap buffer of one entry per map tile; and `tilemap_generate` returns without
any access on any tileset without tiles and on any map image without tiles. -/
theorem C16_in_bounds (img : tiled_image) (t r : Int) (hw : well_formed img) (ht0 : 0 ≤ t)
    (ht1 : t < img.num_tiles) (hr0 : 0 ≤ r) (hr1 : r < 8) :
    img.w_tiles ≠ 0 ∧
      (img.w_px * img.h_px * 4 < 2 ^ 31 →
        ∃ off : Int, tiled_image_get_pixel_row img t r = some off ∧ 0 ≤ off ∧
          off + 32 ≤ img.w_px * img.h_px * 4 ∧ off ∈ pixel_row_steps img t r ∧
          ∃ s : List Nat, load_bytes img.data off 32 = some s) ∧
      (∀ v ∈ pixel_row_steps img t r, 0 ≤ v ∧ v ≤ img.w_px * img.h_px * 4) ∧
      (img.w_px * img.h_px * 4 < 2 ^ 31 →
        ∀ v ∈ pixel_row_steps img t r, -2 ^ 31 ≤ v ∧ v < 2 ^ 31) ∧
      (img.w_px * img.h_px * 4 < 2 ^ 31 →
        ∀ (map : tilemap) (d : List Nat) (tileset : tiled_image), well_formed tileset →
          tileset.w_px * tileset.h_px * 4 < 2 ^ 31 → map.data = some d →
          img.num_tiles ≤ d.length → ∃ g, tilemap_generate map img tileset = some g) ∧
      (∀ (map : tilemap) (image tileset : tiled_image), tileset.num_tiles ≤ 0 →
        tilemap_generate map image tileset = some { retval := 0, map := map, out := [] }) ∧
      (∀ (map : tilemap) (image tileset : tiled_image), image.num_tiles ≤ 0 →
        tilemap_generate map image tileset = some { retval := 0, map := map, out := [] }) := by
  have hW : 0 < img.w_tiles := by
    obtain ⟨hwp, _, hwm, _, hwt, _⟩ := hw
    omega
  have hsteps := pixel_row_steps_bounded hw ht0 ht1 hr0 hr1
  refine ⟨by omega, ?_, hsteps, ?_, ?_, ?_, ?_⟩
  · intro hfit
    obtain ⟨hoff, hoff0, hoff1⟩ := pixel_row_spec hw hfit ht0 ht1 hr0 hr1
    obtain ⟨s, hs, _⟩ := row_bytes_spec hw ht0 ht1 hr0 hr1
    refine ⟨row_offset img t r, hoff, hoff0, hoff1, ?_, s, hs⟩
    rw [← pixel_row_sum img r ht0 hW]
    simp [pixel_row_steps]
  · intro hfit v hv
    have := hsteps v hv
    omega
  · intro hfit map d tileset hT hfT hd hlen
    exact tilemap_generate_defined hw hT hfit hfT hd hlen
  · intro map image tileset hz
    exact tilemap_generate_tiles_empty_tileset image tileset hz _ 0 map
  · intro map image tileset hz
    have : (image.num_tiles - 0).toNat = 0 := by omega
    simp only [tilemap_generate, this, tilemap_generate_tiles]

/-- C16, witness: row 3 of tile 1 of the red and blue image (512 bytes) is addressed in bounds,
and a run on a tileset without tiles returns. -/
theorem C16_in_bounds_witness :
    (∃ off : Int, tiled_image_get_pixel_row red_blue 1 3 = some off ∧ 0 ≤ off ∧
        off + 32 ≤ red_blue.w_px * red_blue.h_px * 4 ∧ off ∈ pixel_row_steps red_blue 1 3 ∧
        ∃ s : List Nat, load_bytes red_blue.data off 32 = some s) ∧
      tilemap_generate (tilemap_new (fun _ => 7) 2) red_blue no_tiles =
        some { retval := 0, map := tilemap_new (fun _ => 7) 2, out := [] } :=
  ⟨(C16_in_bounds red_blue 1 3 (by decide) (by decide) (by decide) (by decide)
      (by decide)).2.1 (by decide),
    (C16_in_bounds red_blue 1 3 (by decide) (by decide) (by decide) (by decide)
      (by decide)).2.2.2.2.2.1 (tilemap_new (fun _ => 7) 2) red_blue no_tiles (by decide)⟩

/-- C17. Tile rows partition the pixel buffer of a well-formed image whose buffer length fits
an `int` (below 2^31 bytes): the 32 bytes at the offset that `tiled_image_get_pixel_row`
returns for a valid tile and row lie inside the buffer `[0, w_px * h_px * 4)`; every byte of
the buffer lies in the range of some valid tile and row; and a byte that lies in the ranges of
two valid pairs of tile and row belongs to one and the same pair. -/
theorem C17_rows_partition (img : tiled_image) (hw : well_formed img)
    (hfit : img.w_px * img.h_px * 4 < 2 ^ 31) :
    (∀ t r : Int, 0 ≤ t → t < img.num_tiles → 0 ≤ r → r < 8 →
        ∃ off : Int, tiled_image_get_pixel_row img t r = some off ∧ 0 ≤ off ∧
          off + 32 ≤ img.w_px * img.h_px * 4) ∧
      (∀ k : Int, 0 ≤ k → k < img.w_px * img.h_px * 4 →
        ∃ t r off : Int, 0 ≤ t ∧ t < img.num_tiles ∧ 0 ≤ r ∧ r < 8 ∧
          tiled_image_get_pixel_row img t r = some off ∧ off ≤ k ∧ k < off + 32) ∧
      (∀ t r t1 r1 off off1 k : Int, 0 ≤ t → t < img.num_tiles → 0 ≤ r → r < 8 → 0 ≤ t1 →
        t1 < img.num_tiles → 0 ≤ r1 → r1 < 8 →
        tiled_image_get_pixel_row img t r = some off →
        tiled_image_get_pixel_row img t1 r1 = some off1 →
        off ≤ k → k < off + 32 → off1 ≤ k → k < off1 + 32 → t = t1 ∧ r = r1) := by
  refine ⟨?_, ?_, ?_⟩
  · intro t r ht0 ht1 hr0 hr1
    exact ⟨row_offset img t r, pixel_row_spec hw hfit ht0 ht1 hr0 hr1⟩
  · intro k hk0 hk1
    obtain ⟨t, r, ht0, ht1, hr0, hr1, h1, h2⟩ := row_offset_covers hw hk0 hk1
    exact ⟨t, r, row_offset img t r, ht0, ht1, hr0, hr1,
      (pixel_row_spec hw hfit ht0 ht1 hr0 hr1).1, h1, h2⟩
  · intro t r t1 r1 off off1 k ht0 ht1 hr0 hr1 hu0 hu1 hs0 hs1 hoff hoff1 h1 h2 h3 h4
    rw [(pixel_row_spec hw hfit ht0 ht1 hr0 hr1).1] at hoff
    rw [(pixel_row_spec hw hfit hu0 hu1 hs0 hs1).1] at hoff1
    simp only [Option.some.injEq] at hoff hoff1
    subst hoff hoff1
    exact row_offset_disjoint hw ht0 hr0 hr1 hu0 hs0 hs1 h1 h2 h3 h4

/-- C17, witness: in the red and blue image, byte 300 lies in row 4 of tile 1, whose range
starts at byte 288. -/
theorem C17_rows_partition_witness :
    ∃ t r off : Int, 0 ≤ t ∧ t < red_blue.num_tiles ∧ 0 ≤ r ∧ r < 8 ∧
      tiled_image_get_pixel_row red_blue t r = some off ∧ off ≤ 300 ∧ 300 < off + 32 :=
  (C17_rows_partition red_blue (by decide) (by decide)).2.1 300 (by decide) (by decide)

/-- C18. Self-mapping of a tileset: for a well-formed tileset of 1 to 256 tiles,
`tilemap_generate` with the tileset as map image and as tileset, on a fresh tilemap, returns 0;
the entry of every tile `i` is the index of a tile equal to tile `i` and is at most `i`; and
when no two different tiles are equal, the entry of every tile `i` is `i`. -/
theorem C18_self_mapping (junk : Nat → Nat) (tileset : tiled_image) (hT : well_formed tileset)
    (h1 : 1 ≤ tileset.num_tiles) (h256 : tileset.num_tiles ≤ 256) :
    ∃ g : generated,
      tilemap_generate (tilemap_new junk tileset.num_tiles) tileset tileset = some g ∧
      g.retval = 0 ∧
      (∀ i : Int, 0 ≤ i → i < tileset.num_tiles → ∃ b : Nat,
        byte_at g.map.data i = some b ∧ (b : Int) ≤ i ∧
        is_tile_equal tileset i tileset b = some 1) ∧
      ((∀ i j : Int, 0 ≤ i → i < tileset.num_tiles → 0 ≤ j → j < tileset.num_tiles → i ≠ j →
          is_tile_equal tileset i tileset j ≠ some 1) →
        ∀ i : Int, 0 ≤ i → i < tileset.num_tiles → byte_at g.map.data i = some i.toNat) := by
  obtain ⟨d, hd, hlen⟩ := tilemap_new_block junk (n := tileset.num_tiles) (by omega) (by omega)
  have hfit := small_image_fits hT h256
  obtain ⟨g, hg, hret, hiff⟩ := tilemap_generate_error_iff hT hT hfit hfit hd (by omega)
  have hok : g.retval = 0 := by
    rcases hret with h | h
    · exact h
    · exfalso
      obtain ⟨i, hi0, hi1, hno⟩ := hiff.mp h
      have := hno i hi0 hi1
      rw [is_tile_equal_refl hT hfit hi0 hi1] at this
      simp at this
  have hentry : ∀ i : Int, 0 ≤ i → i < tileset.num_tiles → ∃ j : Int,
      first_match tileset i tileset j ∧ j ≤ i ∧ byte_at g.map.data i = some j.toNat := by
    intro i hi0 hi1
    obtain ⟨j, hj, hb⟩ := first_match_of_success (by omega) hg hok hi0 hi1
    have hle : j ≤ i := by
      by_contra hlt
      have := hj.2.2.2 i hi0 (by omega)
      rw [is_tile_equal_refl hT hfit hi0 hi1] at this
      simp at this
    rw [(uint8_of_int_eq hj.1 (by have := hj.2.1; omega)).1] at hb
    exact ⟨j, hj, hle, hb⟩
  refine ⟨g, hg, hok, ?_, ?_⟩
  · intro i hi0 hi1
    obtain ⟨j, hj, hle, hb⟩ := hentry i hi0 hi1
    refine ⟨j.toNat, hb, ?_, ?_⟩
    · have := hj.1; omega
    · have e : ((j.toNat : Nat) : Int) = j := by have := hj.1; omega
      rw [e]; exact hj.2.2.1
  · intro hdistinct i hi0 hi1
    obtain ⟨j, hj, hle, hb⟩ := hentry i hi0 hi1
    have hji : j = i := by
      by_contra hne
      exact hdistinct i j hi0 hi1 hj.1 hj.2.1 (fun h => hne h.symm) hj.2.2.1
    rw [hji] at hb; exact hb

/-- C18, witness: the red and blue tileset mapped onto itself gives a tilemap. -/
theorem C18_self_mapping_witness :
    ∃ g : generated,
      tilemap_generate (tilemap_new (fun _ => 7) red_blue.num_tiles) red_blue red_blue = some g ∧
      g.retval = 0 ∧
      (∀ i : Int, 0 ≤ i → i < red_blue.num_tiles → ∃ b : Nat,
        byte_at g.map.data i = some b ∧ (b : Int) ≤ i ∧
        is_tile_equal red_blue i red_blue b = some 1) ∧
      ((∀ i j : Int, 0 ≤ i → i < red_blue.num_tiles → 0 ≤ j → j < red_blue.num_tiles → i ≠ j →
          is_tile_equal red_blue i red_blue j ≠ some 1) →
        ∀ i : Int, 0 ≤ i → i < red_blue.num_tiles → byte_at g.map.data i = some i.toNat) :=
  C18_self_mapping (fun _ => 7) red_blue (by decide) (by decide) (by decide)

end Gbtm
